import Mathlib

/-!
Verification development for the fantasy-baseball draft simulation and
scoring engine (`backend/simulation/`): a shallow embedding in Lean 4 of
`player_pool.py`, `roster.py`, `scoring_model.py`, `draft_engine.py` and
`evaluate.py`, followed by theorems settling the specification claims.

Modelling conventions:
* Python floats are modelled as exact rationals (`ℚ`).
* The transcendental primitives of the `math` module (`math.sqrt`,
  `math.exp`) and the non-integer power `** 1.5` are modelled as explicit
  function parameters carried in an `Env` record, so every definition
  stays executable; theorems quantify over them.
* The seeded `random.Random` object is modelled as an explicit stream of
  standard-normal draws (`gauss : Nat → ℚ`) plus a consumption index in
  the simulation state: `rng.gauss(0, sigma)` at index `k` yields
  `sigma * gauss k` and advances the index, exactly mirroring how the
  engine consumes the generator.
* Python dicts keyed by strings are association lists with first-binding
  lookup (`dget`) and first-binding replacement (`dset`); Python's
  `list.sort` (a stable sort) is modelled by `List.insertionSort`, which
  is stable for the reflexive comparators used here.
-/

namespace FBH

/-- Lookup in an association list, first binding wins: Python `d.get(k, default)`. -/
def dget {α : Type} (d : List (String × α)) (k : String) (default : α) : α :=
  match d.find? (fun kv => kv.1 == k) with
  | some kv => kv.2
  | none => default

/-- Replacement of the first binding of `k` (appending when absent):
Python `d[k] = v`. -/
def dset {α : Type} (d : List (String × α)) (k : String) (v : α) : List (String × α) :=
  match d with
  | [] => [(k, v)]
  | kv :: rest => if kv.1 == k then (kv.1, v) :: rest else kv :: dset rest k v

/-- First-minimum of a nonempty list of rationals (Python `min`); the
callers below only use it on nonempty lists. -/
def listMinD : List ℚ → ℚ
  | [] => 0
  | x :: xs => xs.foldl (fun a b => if b < a then b else a) x

/-- First-maximum of a list of rationals with a default for the empty list
(Python `max(xs, default=d)`). -/
def listMaxD (l : List ℚ) (d : ℚ) : ℚ :=
  match l with
  | [] => d
  | x :: xs => xs.foldl (fun a b => if a < b then b else a) x

/-! ## player_pool.py -/

/-- Hitting category keys (`HITTING_CAT_KEYS`). -/
def HITTING_CAT_KEYS : List String :=
  ["zscore_r", "zscore_tb", "zscore_rbi", "zscore_sb", "zscore_obp"]

/-- Pitching category keys (`PITCHING_CAT_KEYS`). -/
def PITCHING_CAT_KEYS : List String :=
  ["zscore_k", "zscore_qs", "zscore_era", "zscore_whip", "zscore_svhd"]

/-- All category keys (`ALL_CAT_KEYS = HITTING_CAT_KEYS + PITCHING_CAT_KEYS`). -/
def ALL_CAT_KEYS : List String := HITTING_CAT_KEYS ++ PITCHING_CAT_KEYS

/-- Roster slot capacities (`ROSTER_SLOTS`). -/
def ROSTER_SLOTS : List (String × Int) :=
  [("C", 1), ("1B", 1), ("2B", 1), ("3B", 1), ("SS", 1), ("OF", 3),
   ("UTIL", 2), ("SP", 3), ("RP", 2), ("P", 2), ("BE", 8)]

/-- Total roster size (`TOTAL_ROSTER_SIZE = sum(ROSTER_SLOTS.values())`). -/
def TOTAL_ROSTER_SIZE : Int := (ROSTER_SLOTS.map (·.2)).sum

/-- Position-to-slot mapping with `.get(pos, [])` semantics
(`POSITION_TO_SLOTS`). -/
def POSITION_TO_SLOTS (pos : String) : List String :=
  match pos with
  | "C" => ["C", "UTIL", "BE"]
  | "1B" => ["1B", "UTIL", "BE"]
  | "2B" => ["2B", "UTIL", "BE"]
  | "3B" => ["3B", "UTIL", "BE"]
  | "SS" => ["SS", "UTIL", "BE"]
  | "OF" => ["OF", "UTIL", "BE"]
  | "LF" => ["OF", "UTIL", "BE"]
  | "CF" => ["OF", "UTIL", "BE"]
  | "RF" => ["OF", "UTIL", "BE"]
  | "DH" => ["UTIL", "BE"]
  | "SP" => ["SP", "P", "BE"]
  | "RP" => ["RP", "P", "BE"]
  | "TWP" => ["UTIL", "SP", "P", "BE"]
  | _ => []

/-- Player record (`player_pool.Player`). The `/`-separated
`eligible_positions` string is modelled as its list of components
(`None`/empty string become `none`). -/
structure Player where
  mlb_id : Int
  full_name : String
  primary_position : String
  player_type : String
  overall_rank : Int
  total_zscore : ℚ
  espn_adp : Option ℚ
  eligible_positions : Option (List String)
  zscores : List (String × ℚ)
deriving Repr, DecidableEq

/-- Pitcher role inference (`Player.pitcher_role`). -/
def Player.pitcher_role (p : Player) : String :=
  if dget p.zscores "zscore_qs" 0 ≠ 0 then "SP"
  else if dget p.zscores "zscore_svhd" 0 ≠ 0 then "RP"
  else "SP"

/-- Eligible position list (`Player.get_positions`). -/
def Player.get_positions (p : Player) : List String :=
  match p.eligible_positions with
  | some ps => ps
  | none =>
    if p.player_type == "pitcher" then [p.pitcher_role] else [p.primary_position]

/-! ## config.py -/

/-- Simulation configuration (`config.SimConfig`) with its defaults. -/
structure SimConfig where
  LOCK_MCW_WEIGHT : ℚ := 1.0
  TARGET_MCW_WEIGHT : ℚ := 1.0
  MCW_WEIGHT : ℚ := 21.0
  VONA_WEIGHT_MCW : ℚ := 0.16
  VONA_WEIGHT_BPA : ℚ := 0.42
  URGENCY_WEIGHT_MCW : ℚ := 0.02
  URGENCY_WEIGHT_BPA : ℚ := 0.55
  AVAILABILITY_DISCOUNT : ℚ := 0.19
  BENCH_PENALTY_RATE : ℚ := 0.63
  PITCHER_BENCH_CONTRIBUTION : ℚ := 0.45
  HITTER_BENCH_CONTRIBUTION : ℚ := 0.20
  ADP_SIGMA : ℚ := 18.0
  OPP_BENCH_ADP_PENALTY : ℚ := 15.0
  SCALE_BPA_URGENCY : Bool := false
  USE_SLOT_SCARCITY : Bool := false
  USE_VARIABLE_SIGMA : Bool := false
  USE_WINDOW_VONA : Bool := false
  USE_SURPLUS_VALUE : Bool := true
  CONFIDENCE_START : Int := 40
  CONFIDENCE_END : Int := 81
  TARGET_SP : Option Int := none
  TARGET_RP : Option Int := none
  MAX_HITTERS : Option Int := none
  NUM_TEAMS : Nat := 10
  NUM_ROUNDS : Nat := 25
  PLAYOFF_SPOTS : Int := 6
deriving Repr, DecidableEq

/-! ## roster.py -/

/-- Per-team remaining slot capacities (`roster.RosterState`); capacities
are Python ints, hence `Int`. -/
structure RosterState where
  capacity : List (String × Int)
deriving Repr, DecidableEq

/-- Fresh roster: `capacity = dict(ROSTER_SLOTS)`. -/
def RosterState.init : RosterState := ⟨ROSTER_SLOTS⟩

/-- Capacity lookup `self.capacity.get(slot, 0)`. -/
def RosterState.capGet (r : RosterState) (slot : String) : Int :=
  dget r.capacity slot 0

/-- Eligible slots in `POSITION_TO_SLOTS` order, deduplicated keeping
first occurrences (`RosterState._eligible_slots_ordered`). -/
def Player.eligible_slots_ordered (p : Player) : List String :=
  ((p.get_positions.map POSITION_TO_SLOTS).flatten).eraseDups

/-- Membership test `RosterState.can_add`. -/
def RosterState.can_add (r : RosterState) (p : Player) : Bool :=
  p.eligible_slots_ordered.any (fun s => decide (0 < r.capGet s))

/-- Recursion of `RosterState.add_player` over the ordered eligible slots. -/
def addPlayerGo (r : RosterState) : List String → Option String × RosterState
  | [] => (none, r)
  | s :: rest =>
    if 0 < r.capGet s then (some s, ⟨dset r.capacity s (r.capGet s - 1)⟩)
    else addPlayerGo r rest

/-- Greedy slot assignment `RosterState.add_player`: first ordered eligible
slot with positive capacity is decremented and returned. -/
def RosterState.add_player (r : RosterState) (p : Player) : Option String × RosterState :=
  addPlayerGo r p.eligible_slots_ordered

/-- Starting-need test `RosterState.has_starting_need`. -/
def RosterState.has_starting_need (r : RosterState) (p : Player) : Bool :=
  p.eligible_slots_ordered.any (fun s => ¬ s == "BE" && decide (0 < r.capGet s))

/-- Accumulator loop of `RosterState.slot_scarcity` computing the most
constrained positive non-bench capacity (`min_cap`, 0 when none). -/
def slotScarcityMin (r : RosterState) : List String → Int → Int
  | [], m => m
  | s :: rest, m =>
    if s == "BE" then slotScarcityMin r rest m
    else
      let cap := r.capGet s
      if 0 < cap ∧ (m = 0 ∨ cap < m) then slotScarcityMin r rest cap
      else slotScarcityMin r rest m

/-- Scarcity gradient `RosterState.slot_scarcity`: `1/min_cap` over
starting-eligible slots, `0` when none has capacity. -/
def RosterState.slot_scarcity (r : RosterState) (p : Player) : ℚ :=
  let m := slotScarcityMin r p.eligible_slots_ordered 0
  if 0 < m then 1 / (m : ℚ) else 0

/-! ## Environment: machine math primitives and the seeded RNG stream -/

/-- Ambient primitives of one simulation run: `math.sqrt`, `math.exp` and
`x ** 1.5` as abstract rational functions, the seeded RNG as a stream of
standard-normal draws, and the bench-contribution multiplier.
The constant `BENCH_CONTRIBUTION` is imported by `draft_engine.py` from
`player_pool` but its definition is not in the sources; modelled from the
spec: a fractional multiplier applied to a bench player's stats in team
totals. -/
structure Env where
  sqrtQ : ℚ → ℚ
  expQ : ℚ → ℚ
  pow15Q : ℚ → ℚ
  gauss : Nat → ℚ
  benchContribution : ℚ

/-! ## scoring_model.py -/

/-- OF alias resolution (`_normalize_position`). -/
def normalize_position (pos : String) : String :=
  match pos with
  | "LF" => "OF"
  | "CF" => "OF"
  | "RF" => "OF"
  | _ => pos

/-- Rational-approximation normal CDF (`_normal_cdf`); `math.exp` is the
environment's `expQ`. -/
def normal_cdf (env : Env) (x : ℚ) : ℚ :=
  if x < -8 then 0
  else if x > 8 then 1
  else
    let a1 : ℚ := 0.254829592
    let a2 : ℚ := -0.284496736
    let a3 : ℚ := 1.421413741
    let a4 : ℚ := -1.453152027
    let a5 : ℚ := 1.061405429
    let p : ℚ := 0.3275911
    let sign : ℚ := if x < 0 then -1 else 1
    let abs_x := |x|
    let t := 1 / (1 + p * abs_x)
    let y := 1 - (((((a5 * t + a4) * t) + a3) * t + a2) * t + a1) * t
      * env.expQ (-abs_x * abs_x / 2)
    0.5 * (1 + sign * y)

/-- ADP-dependent sigma (`variable_adp_sigma`). -/
def variable_adp_sigma (adp : ℚ) : ℚ := 10.0 + 0.1 * adp

/-- Availability probability (`compute_availability`). -/
def compute_availability (env : Env) (espn_adp : ℚ) (current_pick : Nat)
    (picks_until_mine : Nat) (sigma : ℚ) : ℚ :=
  let target_pick : ℚ := (current_pick : ℚ) + (picks_until_mine : ℚ)
  let z := (target_pick - espn_adp) / sigma
  max 0 (min 1 (1 - normal_cdf env z))

/-- Rank-to-win-probability conversion (`win_prob_from_rank`). -/
def win_prob_from_rank (rank : ℚ) (num_teams : Int) : ℚ :=
  if num_teams ≤ 1 then 0.5
  else ((num_teams : ℚ) - rank) / ((num_teams : ℚ) - 1)

/-- Real-valued rank with ties split (`compute_rank`). -/
def compute_rank (my_value : ℚ) (other_totals : List ℚ) : ℚ :=
  let teams_above := other_totals.countP (fun t => decide (t > my_value))
  let tied_teams := other_totals.countP (fun t => decide (t = my_value))
  (teams_above : ℚ) + 1 + (tied_teams : ℚ) / 2

/-- Confidence ramp (`standings_confidence`). -/
def standings_confidence (total_picks_made : Int) (config : SimConfig) : ℚ :=
  let span := config.CONFIDENCE_END - config.CONFIDENCE_START
  if span ≤ 0 then 1
  else max 0 (min 1 (((total_picks_made - config.CONFIDENCE_START : Int) : ℚ) / (span : ℚ)))

/-- Per-category standing (`scoring_model.CategoryStanding`). -/
structure CategoryStanding where
  cat_key : String
  my_total : ℚ
  my_rank : ℚ
  win_prob : ℚ
  gap_above : ℚ
  gap_below : ℚ
  strategy : String
deriving Repr, DecidableEq

/-- Standings computation (`analyze_category_standings`). -/
def analyze_category_standings (my_totals : List (String × ℚ))
    (other_team_totals : List (String × List ℚ)) (num_teams : Int) :
    List CategoryStanding :=
  ALL_CAT_KEYS.map (fun cat_key =>
    let my_val := dget my_totals cat_key 0
    let other_vals := dget other_team_totals cat_key []
    let rank := compute_rank my_val other_vals
    let win_prob := win_prob_from_rank rank num_teams
    let teams_above := other_vals.filter (fun v => decide (v > my_val))
    let gap_above := if teams_above.isEmpty then 0 else listMinD teams_above - my_val
    let teams_below := other_vals.filter (fun v => decide (v < my_val))
    let gap_below := if teams_below.isEmpty then 0 else my_val - listMaxD teams_below 0
    ⟨cat_key, my_val, rank, win_prob, gap_above, gap_below, "neutral"⟩)

/-- Per-standing classification step of `detect_strategy` (the body of its
first loop). -/
def classifyStanding (num_teams : Int) (playoff_spots : Int)
    (s : CategoryStanding) : CategoryStanding :=
  let playoffRatioQ : ℚ := (playoff_spots : ℚ) / (num_teams : ℚ)
  let punt_gap : ℚ := 3.0 + (playoffRatioQ - 0.4) * 7.5
  let punt_rank_floor : ℚ :=
    if playoffRatioQ ≥ 0.55 then (num_teams : ℚ) else (num_teams : ℚ) - 1
  let target_low : ℚ := if playoffRatioQ ≥ 0.55 then 3 else 4
  let target_high : ℚ := if playoffRatioQ ≥ 0.55 then 8 else 7
  if s.my_rank ≤ 2 ∧ s.gap_below ≥ 1.0 then { s with strategy := "lock" }
  else if s.my_rank ≥ punt_rank_floor ∧ s.gap_above ≥ punt_gap then
    { s with strategy := "punt" }
  else if target_low ≤ s.my_rank ∧ s.my_rank ≤ target_high then
    { s with strategy := "target" }
  else { s with strategy := "neutral" }

/-- Strategy detection with the max-two-punts cap (`detect_strategy`).
Python's stable in-place sort is `List.insertionSort` with the reflexive
comparator `b.my_rank ≤ a.my_rank` (descending). -/
def detect_strategy (standings : List CategoryStanding) (my_pick_count : Int)
    (num_teams : Int) (playoff_spots : Int) : List CategoryStanding :=
  if my_pick_count < 6 then standings
  else
    let classified := standings.map (classifyStanding num_teams playoff_spots)
    let punt_cats := classified.filter (fun s => s.strategy == "punt")
    let sorted := List.insertionSort (fun a b => b.my_rank ≤ a.my_rank) punt_cats
    if sorted.length > 2 then
      let keep := (sorted.take 2).map (·.cat_key)
      classified.map (fun s =>
        if s.strategy == "punt" ∧ ¬ keep.contains s.cat_key then
          { s with strategy := "neutral" }
        else s)
    else classified

/-- Loop body of `compute_mcw` for one category: the category's
contribution to the MCW sum (0 for punted and zero-valued categories). -/
def mcwContrib (env : Env) (player_zscores : List (String × ℚ))
    (my_totals : List (String × ℚ)) (other_team_totals : List (String × List ℚ))
    (strategies : List (String × String)) (num_teams : Int)
    (config : Option SimConfig) (cat_key : String) : ℚ :=
  let strategy := dget strategies cat_key "neutral"
  if strategy == "punt" then 0
  else
    let my_val := dget my_totals cat_key 0
    let player_val := dget player_zscores cat_key 0
    if player_val = 0 then 0
    else
      let new_val := my_val + player_val
      let other_vals := dget other_team_totals cat_key []
      let rank_before := compute_rank my_val other_vals
      let rank_after := compute_rank new_val other_vals
      let win_before := win_prob_from_rank rank_before num_teams
      let win_after := win_prob_from_rank rank_after num_teams
      let marginal_win := win_after - win_before
      let marginal_win :=
        if marginal_win = 0 ∧ player_val > 0 then
          let teams_above_before := other_vals.filter (fun v => decide (v > my_val))
          let teams_above_after := other_vals.filter (fun v => decide (v > new_val))
          if ¬ teams_above_before.isEmpty
              ∧ teams_above_after.length = teams_above_before.length then
            let closest_above := listMinD teams_above_before
            let gap_before := closest_above - my_val
            let gap_after := closest_above - new_val
            if gap_before > 0 then
              let gap_closed := (gap_before - gap_after) / gap_before
              env.pow15Q gap_closed * 0.55 / ((num_teams : ℚ) - 1)
            else marginal_win
          else marginal_win
        else marginal_win
      match config with
      | some cfg =>
        if strategy == "lock" then marginal_win * cfg.LOCK_MCW_WEIGHT
        else if strategy == "target" then marginal_win * cfg.TARGET_MCW_WEIGHT
        else marginal_win
      | none => marginal_win

/-- Marginal category wins (`compute_mcw`): sum of the per-category
contributions over `ALL_CAT_KEYS`. -/
def compute_mcw (env : Env) (player_zscores : List (String × ℚ))
    (my_totals : List (String × ℚ)) (other_team_totals : List (String × List ℚ))
    (strategies : List (String × String)) (num_teams : Int)
    (config : Option SimConfig) : ℚ :=
  (ALL_CAT_KEYS.map
    (mcwContrib env player_zscores my_totals other_team_totals strategies
      num_teams config)).sum

/-- Score blending (`compute_draft_score`). -/
def compute_draft_score (mcw vona urgency roster_fit confidence draft_progress : ℚ)
    (config : SimConfig) : ℚ :=
  mcw * config.MCW_WEIGHT * confidence
    + vona * config.VONA_WEIGHT_MCW
    + urgency * config.URGENCY_WEIGHT_MCW
    + roster_fit * draft_progress

/-- Mean/stdev pair (`scoring_model.CatStats`). -/
structure CatStats where
  mean : ℚ
  stdev : ℚ
deriving Repr, DecidableEq

/-- Role-relevant subset of the available pool for one category (the
`relevant` comprehension inside `compute_cat_stats`). -/
def relevantPlayers (available_players : List Player) (cat_key : String) : List Player :=
  let is_hitter_cat := HITTING_CAT_KEYS.contains cat_key
  available_players.filter (fun p => (p.player_type == "hitter") == is_hitter_cat)

/-- Values of the relevant players in one category (`values` in
`compute_cat_stats`). -/
def catValues (available_players : List Player) (cat_key : String) : List ℚ :=
  (relevantPlayers available_players cat_key).map (fun p => dget p.zscores cat_key 0)

/-- Guarded count `n = len(values) or 1` in `compute_cat_stats`. -/
def catCount (available_players : List Player) (cat_key : String) : ℚ :=
  if (catValues available_players cat_key).length = 0 then 1
  else ((catValues available_players cat_key).length : ℚ)

/-- Category mean `mean = sum(values) / n` in `compute_cat_stats`. -/
def catMean (available_players : List Player) (cat_key : String) : ℚ :=
  (catValues available_players cat_key).sum / catCount available_players cat_key

/-- Category variance `variance = sum((v - mean)**2 for v in values) / n`
in `compute_cat_stats`. -/
def catVariance (available_players : List Player) (cat_key : String) : ℚ :=
  ((catValues available_players cat_key).map
    (fun v => (v - catMean available_players cat_key) ^ 2)).sum
    / catCount available_players cat_key

/-- Mean/stdev of one category inside `compute_cat_stats`; `len(values) or 1`
guards the mean's denominator and `stdev = 1` is substituted whenever the
variance is not positive. -/
def catStatsFor (env : Env) (available_players : List Player) (cat_key : String) :
    CatStats :=
  let variance := catVariance available_players cat_key
  let stdev := if variance > 0 then env.sqrtQ variance else 1
  ⟨catMean available_players cat_key, stdev⟩

/-- Category statistics over the available pool (`compute_cat_stats`). -/
def compute_cat_stats (env : Env) (available_players : List Player) :
    List (String × CatStats) :=
  ALL_CAT_KEYS.map (fun ck => (ck, catStatsFor env available_players ck))

/-- Cross-sectional normalized value (`get_normalized_value`); the direct
dict index `cat_stats[cat_key]` is modelled with default `⟨0, 1⟩` (the
engine always passes stats holding every category key). -/
def get_normalized_value (player : Player) (cat_stats : List (String × CatStats)) : ℚ :=
  let cats := if player.player_type == "pitcher" then PITCHING_CAT_KEYS
    else HITTING_CAT_KEYS
  cats.foldl (fun total cat_key =>
    let raw := dget player.zscores cat_key 0
    let cs := dget cat_stats cat_key ⟨0, 1⟩
    total + (raw - cs.mean) / cs.stdev) 0

/-- Loop of `compute_surplus_value` over eligible positions with the `seen`
deduplication set and the running best surplus. -/
def surplusGo (nv : ℚ) (replacement_levels : List (String × ℚ)) :
    List String → List String → Option ℚ → Option ℚ
  | [], _, best => best
  | pos :: rest, seen, best =>
    if seen.contains pos then surplusGo nv replacement_levels rest seen best
    else
      let seen' := seen ++ [pos]
      match (replacement_levels.find? (fun kv => kv.1 == pos)).map (·.2) with
      | none => surplusGo nv replacement_levels rest seen' best
      | some repl =>
        let surplus := nv - repl
        let best' := match best with
          | none => some surplus
          | some b => if surplus > b then some surplus else some b
        surplusGo nv replacement_levels rest seen' best'

/-- Surplus value / VORP (`compute_surplus_value`). -/
def compute_surplus_value (player : Player) (normalized_value : ℚ)
    (replacement_levels : List (String × ℚ)) : ℚ :=
  let positions := if player.player_type == "pitcher" then [player.pitcher_role]
    else player.get_positions.map normalize_position
  (surplusGo normalized_value replacement_levels positions [] none).getD normalized_value

/-- First-occurrence search returning index and normalized value (the
`for i, (mid, val, _adp) in enumerate(pos_players)` loop of
`_vona_at_position`). -/
def findIdxVal : List (Int × ℚ × ℚ) → Int → Nat → Option (Nat × ℚ)
  | [], _, _ => none
  | e :: rest, mid, i =>
    if e.1 = mid then some (i, e.2.1) else findIdxVal rest mid (i + 1)

/-- Single-position VONA (`_vona_at_position`). -/
def vona_at_position (mlb_id : Int) (pos : String)
    (available_by_position : List (String × List (Int × ℚ × ℚ))) : ℚ :=
  match findIdxVal (dget available_by_position pos []) mlb_id 0 with
  | none => 0
  | some (my_idx, my_value) =>
    if my_idx + 1 < (dget available_by_position pos []).length then
      my_value - ((dget available_by_position pos []).getD (my_idx + 1) (0, 0, 0)).2.1
    else my_value

/-- Eligible position list used by `compute_vona`/`compute_window_vona`:
`[player.pitcher_role()]` for pitchers, else `player.get_positions()`. -/
def vonaPositions (player : Player) : List String :=
  if player.player_type == "pitcher" then [player.pitcher_role]
  else player.get_positions

/-- Value over next available (`compute_vona`): max across eligible
positions, default 0. -/
def compute_vona (player : Player)
    (available_by_position : List (String × List (Int × ℚ × ℚ))) : ℚ :=
  listMaxD
    ((vonaPositions player).map
      (fun pos => vona_at_position player.mlb_id pos available_by_position)) 0

/-- First-occurrence value search (the first loop of
`_window_vona_at_position`). -/
def findVal : List (Int × ℚ × ℚ) → Int → Option ℚ
  | [], _ => none
  | e :: rest, mid => if e.1 = mid then some e.2.1 else findVal rest mid

/-- Single-position window VONA (`_window_vona_at_position`). -/
def window_vona_at_position (env : Env) (mlb_id : Int) (pos : String)
    (available_by_position : List (String × List (Int × ℚ × ℚ)))
    (current_pick : Nat) (picks_until_mine : Nat) (adp_sigma : ℚ) : ℚ :=
  let pos_players := dget available_by_position pos []
  match findVal pos_players mlb_id with
  | none => 0
  | some my_value =>
    let alternatives := (pos_players.filter (fun e => e.1 != mlb_id)).map
      (fun e =>
        let sigma := if adp_sigma < 0 then variable_adp_sigma e.2.2 else adp_sigma
        (e.2.1, compute_availability env e.2.2 current_pick picks_until_mine sigma))
    if alternatives.isEmpty then my_value
    else
      let expected_replacement := (alternatives.foldl
        (fun (acc : ℚ × ℚ) vp => (acc.1 + vp.1 * (acc.2 * vp.2), acc.2 * (1 - vp.2)))
        (0, 1)).1
      my_value - expected_replacement

/-- Window VONA (`compute_window_vona`): max across eligible positions. -/
def compute_window_vona (env : Env) (player : Player)
    (available_by_position : List (String × List (Int × ℚ × ℚ)))
    (current_pick : Nat) (picks_until_mine : Nat) (adp_sigma : ℚ) : ℚ :=
  listMaxD
    ((vonaPositions player).map
      (fun pos => window_vona_at_position env player.mlb_id pos
        available_by_position current_pick picks_until_mine adp_sigma)) 0

/-- Position-indexed availability lists (`build_available_by_position`):
per position `(mlb_id, normalized_value, adp)` triples sorted descending by
value (stable). -/
def build_available_by_position (available : List Player)
    (cat_stats : List (String × CatStats)) :
    List (String × List (Int × ℚ × ℚ)) :=
  let by_pos := available.foldl (fun m p =>
    let nv := get_normalized_value p cat_stats
    let adp := p.espn_adp.getD 999
    p.get_positions.foldl
      (fun m pos => dset m pos (dget m pos [] ++ [(p.mlb_id, nv, adp)])) m) []
  by_pos.map (fun kv =>
    (kv.1, List.insertionSort (fun a b => b.2.1 ≤ a.2.1) kv.2))

/-- Full blended candidate score (`full_player_score`); the engine passes
`has_starting_need` as a boolean coerced to `1`/`0`. -/
def full_player_score (env : Env) (player : Player)
    (my_totals : List (String × ℚ)) (other_team_totals : List (String × List ℚ))
    (strategies : List (String × String)) (cat_stats : List (String × CatStats))
    (available_by_position : List (String × List (Int × ℚ × ℚ)))
    (has_starting_need : ℚ) (current_pick : Nat) (picks_until_mine : Nat)
    (total_picks_made : Nat) (my_pick_count : Nat) (config : SimConfig)
    (bench_pitcher_count : Nat) (replacement_levels : Option (List (String × ℚ))) : ℚ :=
  let normalized_value := get_normalized_value player cat_stats
  let bpa_value :=
    if config.USE_SURPLUS_VALUE then
      match replacement_levels with
      | some rl => compute_surplus_value player normalized_value rl
      | none => normalized_value
    else normalized_value
  let effective_sigma : ℚ := if config.USE_VARIABLE_SIGMA then -1 else config.ADP_SIGMA
  let vona :=
    if config.USE_WINDOW_VONA then
      compute_window_vona env player available_by_position current_pick
        picks_until_mine effective_sigma
    else compute_vona player available_by_position
  let urgency : ℚ :=
    match player.espn_adp with
    | none => 0
    | some adp =>
      let adp_gap := adp - (current_pick : ℚ)
      max 0 (min 15 ((picks_until_mine : ℚ) - adp_gap))
  let roster_fit := has_starting_need
  let confidence := standings_confidence (total_picks_made : Int) config
  let draft_progress : ℚ := min 1 ((my_pick_count : ℚ) / 25)
  let bpa_urgency_weight := config.URGENCY_WEIGHT_BPA *
    (if config.SCALE_BPA_URGENCY then draft_progress else 1)
  let score :=
    if 2 * config.NUM_TEAMS ≤ total_picks_made ∧ confidence > 0 then
      let mcw := compute_mcw env player.zscores my_totals other_team_totals
        strategies (config.NUM_TEAMS : Int) (some config)
      let score := compute_draft_score mcw vona urgency roster_fit confidence
        draft_progress config
      let raw_score := bpa_value + vona * config.VONA_WEIGHT_BPA
        + urgency * bpa_urgency_weight
      score * confidence + raw_score * (1 - confidence)
    else bpa_value + vona * config.VONA_WEIGHT_BPA + urgency * bpa_urgency_weight
  let score :=
    if ¬ config.USE_WINDOW_VONA then
      match player.espn_adp with
      | some adp =>
        let avail_sigma := if config.USE_VARIABLE_SIGMA then variable_adp_sigma adp
          else config.ADP_SIGMA
        let avail := compute_availability env adp current_pick picks_until_mine
          avail_sigma
        score * (1 - avail * config.AVAILABILITY_DISCOUNT)
      | none => score
    else score
  if has_starting_need = 0 ∧ draft_progress > 0.15 then
    if player.player_type == "pitcher" then
      let saturation : ℚ := min 1 ((bench_pitcher_count : ℚ) / 3)
      let floor : ℚ := 0.65 - saturation * 0.30
      let scale : ℚ := 0.35 + saturation * 0.28
      score * max floor (1 - draft_progress * scale)
    else score * max 0.35 (1 - draft_progress * config.BENCH_PENALTY_RATE)
  else score

/-! ## draft_engine.py -/

/-- Result of a draft simulation (`draft_engine.DraftResult`). The three
diagnostic counters are read by `evaluate_draft` but are absent from the
`DraftResult` declared in the sources; modelled from the spec:
roster-composition diagnostics (bench-pitcher/SP/RP counts) reported for
regression/calibration testing. -/
structure DraftResult where
  my_slot : Nat
  my_players : List Player
  all_team_totals : List (List (String × ℚ))
  pick_order : List Int
  bench_pitcher_count : Nat
  sp_count : Nat
  rp_count : Nat
deriving Repr, DecidableEq

/-- Snake-draft team index for an overall pick index (`snake_order`). -/
def snake_order (pick_index : Nat) (num_teams : Nat) : Nat :=
  let rnd := pick_index / num_teams
  let pos := pick_index % num_teams
  if rnd % 2 = 0 then pos else num_teams - 1 - pos

/-- Distance to the simulated team's next turn (`picks_until_next_turn`);
the search bound `num_teams * 25 + 1` is hardcoded in the source. -/
def picks_until_next_turn (current_pick : Nat) (my_team : Nat) (num_teams : Nat) : Nat :=
  let bound := num_teams * 25 + 1
  match (List.range' (current_pick + 1) (bound - (current_pick + 1))).find?
      (fun i => snake_order i num_teams == my_team) with
  | some i => i - current_pick
  | none => 999

/-- Ghost record of one executed pick (observation only, not in the
source): overall pick index, picking team, chosen player and the slot
returned by `add_player` (`none` for a fallback pick that fits no slot). -/
structure PickEvent where
  pick_idx : Nat
  team_idx : Nat
  mlb_id : Int
  slot : Option String
deriving Repr, DecidableEq

/-- Mutable state of `simulate_draft`'s loop. `available` models the id
set (membership/emptiness/discard only), `rng_idx` the consumption index
of the seeded generator, `pick_log` is ghost observation state. -/
structure SimState where
  available : List Int
  rosters : List RosterState
  team_totals : List (List (String × ℚ))
  team_players : List (List Player)
  my_pick_count : Nat
  cat_stats : List (String × CatStats)
  cat_stats_round : Int
  my_players : List Player
  pick_order : List Int
  rng_idx : Nat
  pick_log : List PickEvent
deriving Repr, DecidableEq

/-- Static data of one simulation run: environment, configuration, the
immutable `all_players` snapshot (`available_list` is never mutated in the
source) and the simulated team's slot. -/
structure Ctx where
  env : Env
  cfg : SimConfig
  all_players : List Player
  my_slot : Nat

/-- Currently available players
(`[p for p in available_list if p.mlb_id in available_set]`). -/
def availPlayers (ctx : Ctx) (st : SimState) : List Player :=
  ctx.all_players.filter (fun p => st.available.contains p.mlb_id)

/-- Round-boundary refresh of the category statistics (lines 90-93 of
`draft_engine.py`). -/
def refreshCatStats (ctx : Ctx) (pick_idx : Nat) (st : SimState) : SimState :=
  let current_round : Int := (pick_idx / ctx.cfg.NUM_TEAMS : Nat)
  if current_round ≠ st.cat_stats_round then
    { st with
      cat_stats := compute_cat_stats ctx.env (availPlayers ctx st)
      cat_stats_round := current_round }
  else st

/-- Per-category totals of the other teams, sorted descending (lines
98-107 of `draft_engine.py`). -/
def otherTeamTotals (ctx : Ctx) (st : SimState) : List (String × List ℚ) :=
  ALL_CAT_KEYS.map (fun cat_key =>
    let vals := ((List.range ctx.cfg.NUM_TEAMS).filter (fun t => t ≠ ctx.my_slot)).map
      (fun t => dget (st.team_totals.getD t []) cat_key 0)
    (cat_key, List.insertionSort (fun a b : ℚ => b ≤ a) vals))

/-- Loop body of the simulated team's argmax over candidates (lines
119-141 of `draft_engine.py`): skip non-fitting players, keep the
strictly best score seen so far (`none` models `best_score = -inf`, which
any first finite score beats). -/
def bestStep (can : Player → Bool) (score : Player → ℚ)
    (best : Option (ℚ × Player)) (p : Player) : Option (ℚ × Player) :=
  if ¬ can p then best
  else
    match best with
    | none => some (score p, p)
    | some bs => if score p > bs.1 then some (score p, p) else some bs

/-- The simulated team's candidate choice (lines 95-148 of
`draft_engine.py`): score every roster-eligible available player with
`full_player_score`, take the strict-max, falling back to the first
available player that fits. -/
def myChoice (ctx : Ctx) (pick_idx : Nat) (st : SimState) : Option Player :=
  let avail := availPlayers ctx st
  let abp := build_available_by_position avail st.cat_stats
  let ott := otherTeamTotals ctx st
  let my_totals := st.team_totals.getD ctx.my_slot []
  let standings := analyze_category_standings my_totals ott (ctx.cfg.NUM_TEAMS : Int)
  let standings := detect_strategy standings (st.my_pick_count : Int)
    (ctx.cfg.NUM_TEAMS : Int) ctx.cfg.PLAYOFF_SPOTS
  let strategies := standings.map (fun s => (s.cat_key, s.strategy))
  let pum := picks_until_next_turn pick_idx ctx.my_slot ctx.cfg.NUM_TEAMS
  let roster := st.rosters.getD ctx.my_slot RosterState.init
  let best := avail.foldl
    (bestStep (fun p => roster.can_add p)
      (fun p => full_player_score ctx.env p my_totals ott strategies
        st.cat_stats abp (if roster.has_starting_need p then 1 else 0)
        pick_idx pum pick_idx st.my_pick_count ctx.cfg 0 none)) none
  match best with
  | some bs => some bs.2
  | none => avail.find? (fun p => roster.can_add p)

/-- Lookup in `player_by_id = {p.mlb_id: p for p in all_players}`; a dict
comprehension keeps the last binding of a duplicated key, hence the
reversed search. -/
def playerById (ctx : Ctx) (mlb_id : Int) : Option Player :=
  ctx.all_players.reverse.find? (fun p => p.mlb_id == mlb_id)

/-- Opponent pick (`_opponent_pick`): noisy-ADP candidates (one Gaussian
draw per available player, `gauss(0, σ)` modelled as `σ *` the stream
draw), sorted ascending by noise key (stable), first that fits, falling
back to the first candidate. Returns the choice and the advanced RNG
index. -/
def opponentPick (ctx : Ctx) (st : SimState) (roster : RosterState) :
    Option Player × Nat :=
  let built := ctx.all_players.foldl (fun (acc : List (ℚ × Int) × Nat) p =>
    if st.available.contains p.mlb_id then
      let adp := p.espn_adp.getD 999
      let noisy_adp := adp + ctx.cfg.ADP_SIGMA * ctx.env.gauss acc.2
      (acc.1 ++ [(noisy_adp, p.mlb_id)], acc.2 + 1)
    else acc) ([], st.rng_idx)
  let candidates := List.insertionSort (fun a b : ℚ × Int => a.1 ≤ b.1) built.1
  match candidates.find? (fun c =>
      match playerById ctx c.2 with
      | some p => roster.can_add p
      | none => false) with
  | some c => (playerById ctx c.2, built.2)
  | none =>
    match candidates with
    | [] => (none, built.2)
    | c :: _ => (playerById ctx c.2, built.2)

/-- Shared post-choice update (lines 167-173 of `draft_engine.py`):
discard the chosen id from the pool, assign a roster slot via
`add_player`, add the player's category values to the picking team's
totals scaled by `BENCH_CONTRIBUTION` when bench-assigned, append to the
team roster (and to the ghost pick log). -/
def applyPick (ctx : Ctx) (pick_idx : Nat) (team_idx : Nat) (chosen : Player)
    (st : SimState) : SimState :=
  let added := (st.rosters.getD team_idx RosterState.init).add_player chosen
  let weight := if added.1 == some "BE" then ctx.env.benchContribution else 1
  let totals := st.team_totals.getD team_idx []
  let totals' := ALL_CAT_KEYS.foldl
    (fun d cat_key => dset d cat_key (dget d cat_key 0 + dget chosen.zscores cat_key 0 * weight))
    totals
  { st with
    available := st.available.filter (fun id => id != chosen.mlb_id)
    rosters := st.rosters.set team_idx added.2
    team_totals := st.team_totals.set team_idx totals'
    team_players := st.team_players.set team_idx
      (st.team_players.getD team_idx [] ++ [chosen])
    pick_log := st.pick_log ++ [⟨pick_idx, team_idx, chosen.mlb_id, added.1⟩] }

/-- One iteration of the pick loop (lines 79-173 of `draft_engine.py`):
the simulated team's branch refreshes category statistics and records the
pick on the result before the shared update; the opponent branch consumes
the RNG; a failed choice is a `continue`. -/
def simStep (ctx : Ctx) (pick_idx : Nat) (st : SimState) : SimState :=
  let team_idx := snake_order pick_idx ctx.cfg.NUM_TEAMS
  if team_idx = ctx.my_slot then
    let st1 := refreshCatStats ctx pick_idx st
    match myChoice ctx pick_idx st1 with
    | none => st1
    | some chosen =>
      let st2 := { st1 with
        my_pick_count := st1.my_pick_count + 1
        my_players := st1.my_players ++ [chosen]
        pick_order := st1.pick_order ++ [chosen.mlb_id] }
      applyPick ctx pick_idx team_idx chosen st2
  else
    let picked := opponentPick ctx st (st.rosters.getD team_idx RosterState.init)
    let st1 := { st with rng_idx := picked.2 }
    match picked.1 with
    | none => st1
    | some chosen => applyPick ctx pick_idx team_idx chosen st1

/-- The pick loop `for pick_idx in range(total_picks)` with the
`if not available_set: break` guard, as fuel recursion. -/
def simLoop (ctx : Ctx) : Nat → Nat → SimState → SimState
  | 0, _, st => st
  | n + 1, pick_idx, st =>
    if st.available.isEmpty then st
    else simLoop ctx n (pick_idx + 1) (simStep ctx pick_idx st)

/-- Initial loop state of `simulate_draft` (lines 59-77). -/
def initState (ctx : Ctx) : SimState :=
  { available := ctx.all_players.map (·.mlb_id)
    rosters := List.replicate ctx.cfg.NUM_TEAMS RosterState.init
    team_totals := List.replicate ctx.cfg.NUM_TEAMS
      (ALL_CAT_KEYS.map (fun k => (k, (0 : ℚ))))
    team_players := List.replicate ctx.cfg.NUM_TEAMS []
    my_pick_count := 0
    cat_stats := []
    cat_stats_round := -1
    my_players := []
    pick_order := []
    rng_idx := 0
    pick_log := [] }

/-- Final loop state of one full run. -/
def simulateFinal (ctx : Ctx) : SimState :=
  simLoop ctx (ctx.cfg.NUM_TEAMS * ctx.cfg.NUM_ROUNDS) 0 (initState ctx)

/-- Full draft simulation (`simulate_draft`); the diagnostic counters are
not set by the source constructor and stay 0. -/
def simulate_draft (env : Env) (all_players : List Player) (my_slot : Nat)
    (config : SimConfig) : DraftResult :=
  let st := simulateFinal ⟨env, config, all_players, my_slot⟩
  ⟨my_slot, st.my_players, st.team_totals, st.pick_order, 0, 0, 0⟩

/-! ## evaluate.py -/

/-- Evaluation summary (the dict returned by `evaluate_draft`). -/
structure EvalResult where
  expected_wins : ℚ
  cat_win_probs : List (String × ℚ)
  hitter_count : Nat
  pitcher_count : Nat
  first_pitcher_round : Option Nat
  bench_pitcher_count : Nat
  sp_count : Nat
  rp_count : Nat
deriving Repr, DecidableEq

/-- Post-draft evaluation (`evaluate_draft`): every category of
`ALL_CAT_KEYS` is ranked against the full field, converted to a win
probability and summed; roster-composition diagnostics are copied from
the result. -/
def evaluate_draft (result : DraftResult) (num_teams : Nat) : EvalResult :=
  let my_totals := result.all_team_totals.getD result.my_slot []
  let cat_win_probs := ALL_CAT_KEYS.map (fun cat_key =>
    let other_vals := ((List.range num_teams).filter (fun t => t ≠ result.my_slot)).map
      (fun t => dget (result.all_team_totals.getD t []) cat_key 0)
    let sorted := List.insertionSort (fun a b : ℚ => b ≤ a) other_vals
    let rank := compute_rank (dget my_totals cat_key 0) sorted
    (cat_key, win_prob_from_rank rank (num_teams : Int)))
  let expected_wins := (cat_win_probs.map (·.2)).sum
  let hitter_count := result.my_players.countP (fun p => p.player_type == "hitter")
  let pitcher_count := result.my_players.countP (fun p => p.player_type == "pitcher")
  let first_pitcher_round :=
    match result.my_players.findIdx? (fun p => p.player_type == "pitcher") with
    | some i => some (i + 1)
    | none => none
  ⟨expected_wins, cat_win_probs, hitter_count, pitcher_count,
    first_pitcher_round, result.bench_pitcher_count, result.sp_count,
    result.rp_count⟩

/-! ## Auxiliary observation functions -/

/-- Optional association-list lookup (used in theorem statements to assert
that a key is present). -/
def dfind? {α : Type} (d : List (String × α)) (k : String) : Option α :=
  (d.find? (fun kv => kv.1 == k)).map (·.2)

/-- Number of picks of the snake schedule assigned to team `t` among the
overall pick indices `0 .. n-1`. -/
def teamPickCount (num_teams : Nat) (t : Nat) (n : Nat) : Nat :=
  (List.range n).countP (fun i => snake_order i num_teams == t)

/-- Loop invariant of `simulate_draft` at pick index `i`: no id was
drafted twice; drafted ids are gone from the pool; the per-team roster
lists track the pick log team by team; and each team's roster size is
bounded by its number of snake-schedule turns so far. -/
def SimInv (ctx : Ctx) (i : Nat) (st : SimState) : Prop :=
  (st.pick_log.map (fun e => e.mlb_id)).Nodup
  ∧ (∀ id ∈ st.pick_log.map (fun e => e.mlb_id), id ∉ st.available)
  ∧ st.team_players.length = ctx.cfg.NUM_TEAMS
  ∧ (∀ t, t < ctx.cfg.NUM_TEAMS →
      ((st.team_players.getD t []).map (fun p => p.mlb_id))
        = ((st.pick_log.filter (fun e => e.team_idx == t)).map (fun e => e.mlb_id)))
  ∧ (∀ t, t < ctx.cfg.NUM_TEAMS →
      (st.team_players.getD t []).length ≤ teamPickCount ctx.cfg.NUM_TEAMS t i)

/-! ## Concrete inputs for counterexamples and witnesses -/

/-- Environment whose math oracles are constant zero and whose RNG stream
is all zeros; used in runs that never consult them (players without ADP
and with empty z-score dicts never reach `exp`, `sqrt` or `** 1.5`, and a
zero Gaussian draw models the noise-free boundary of `gauss(0, σ)`). -/
def cexEnv : Env := ⟨fun _ => 0, fun _ => 0, fun _ => 0, fun _ => 0, 45 / 100⟩

/-- Catcher-only hitter with no ADP and an empty z-score dict (every
category value 0, the `missing ⇒ 0` reading of the pool contract). -/
def mkHitterC (i : Nat) : Player := ⟨(i : Int), "", "C", "hitter", 0, 0, none, none, []⟩

/-- Two-team, 26-round configuration (26 exceeds the 25-slot roster). -/
def cfgC2 : SimConfig := { NUM_TEAMS := 2, NUM_ROUNDS := 26 }

/-- Pool of 38 distinct catcher-only hitters. -/
def poolC2 : List Player := (List.range 38).map mkHitterC

/-- Context of the 26-round counterexample run, simulated slot 0. -/
def ctxC2 : Ctx := ⟨cexEnv, cfgC2, poolC2, 0⟩

/-- Two-team, 12-round configuration (each team's eligible capacity for
catcher-only players is 11 = C + UTIL×2 + BE×8, so a 12th opponent pick
must fall back). -/
def cfgC4 : SimConfig := { NUM_TEAMS := 2, NUM_ROUNDS := 12 }

/-- Pool of 24 distinct catcher-only hitters. -/
def poolC4 : List Player := (List.range 24).map mkHitterC

/-- Context of the 12-round fallback run, simulated slot 0. -/
def ctxC4 : Ctx := ⟨cexEnv, cfgC4, poolC4, 0⟩

/-- Tiny one-team, one-round context for witnesses. -/
def ctxTiny : Ctx := ⟨cexEnv, { NUM_TEAMS := 1, NUM_ROUNDS := 1 }, [mkHitterC 1], 0⟩

/-- Environment whose square root is the identity; its single use in the
VONA counterexample is at variance 1, where `math.sqrt 1 = 1` agrees. -/
def envIdSqrt : Env := ⟨fun x => x, fun _ => 0, fun _ => 0, fun _ => 0, 45 / 100⟩

/-- Catcher with z-score 2 in R; the only available catcher. -/
def pVonaA : Player := ⟨1, "", "C", "hitter", 0, 0, none, none, [("zscore_r", 2)]⟩

/-- First-base hitter with empty z-scores. -/
def pVonaB : Player := ⟨2, "", "1B", "hitter", 0, 0, none, none, []⟩

/-- Two-player pool in which `pVonaA` has normalized value 1 and is the
last available player at position C. -/
def vonaPool : List Player := [pVonaA, pVonaB]

/-- Position lists built from `vonaPool` exactly as the engine does. -/
def vonaAbp : List (String × List (Int × ℚ × ℚ)) :=
  build_available_by_position vonaPool (compute_cat_stats envIdSqrt vonaPool)

/-- Multi-position player eligible at C and 1B: ordered slots
`[C, UTIL, BE, 1B]`. -/
def pC1B : Player := ⟨100, "", "C", "hitter", 0, 0, none, some ["C", "1B"], []⟩

/-- Roster after three catcher-only additions (fills C and both UTIL
slots), built through `add_player` itself. -/
def rosterC3 : RosterState :=
  ((((RosterState.init.add_player (mkHitterC 1)).2.add_player
    (mkHitterC 2)).2.add_player (mkHitterC 3)).2)

/-- Standing entry classified as a punt for 10 teams / 6 playoff spots
(rank 10 at the bottom, gap above 10 beyond the scaled margin 4.5). -/
def puntStanding (k : String) : CategoryStanding := ⟨k, 0, 10, 0, 10, 0, "neutral"⟩

/-- Three punt-qualifying standings sharing one category key. -/
def puntTriple : List CategoryStanding :=
  [puntStanding "zscore_r", puntStanding "zscore_r", puntStanding "zscore_r"]

/-- Two punt-qualifying standings with distinct keys (witness input). -/
def puntPair : List CategoryStanding :=
  [puntStanding "zscore_r", puntStanding "zscore_tb"]

/-- Designated-hitter player (eligible slots `[UTIL, BE]`), witness input. -/
def pDH : Player := ⟨101, "", "DH", "hitter", 0, 0, none, none, []⟩

/-- Roster value with an exhausted UTIL slot, witness input. -/
def rosterUtil0 : RosterState := ⟨[("UTIL", 0), ("BE", 8)]⟩

/-! ## Helper lemmas -/

theorem dget_dset_same {α : Type} (d : List (String × α)) (k : String) (v : α)
    (default : α) : dget (dset d k v) k default = v := by
  induction d with
  | nil => simp [dset, dget, List.find?]
  | cons kv rest ih =>
    by_cases h : kv.1 == k
    · simp only [dset, h, if_pos]
      simp [dget, List.find?, h]
    · simp only [dset, h, if_neg, Bool.false_eq_true, not_false_iff]
      simpa [dget, List.find?, h] using ih

theorem dget_dset_ne {α : Type} (d : List (String × α)) (k k' : String) (v : α)
    (default : α) (hne : k' ≠ k) :
    dget (dset d k v) k' default = dget d k' default := by
  induction d with
  | nil =>
    simp only [dset, dget, List.find?]
    have : (k == k') = false := by simpa [beq_iff_eq] using fun h => hne h.symm
    simp [this]
  | cons kv rest ih =>
    by_cases h : kv.1 == k
    · have hk : kv.1 = k := by simpa [beq_iff_eq] using h
      have : (kv.1 == k') = false := by
        simp [beq_iff_eq, hk]
        exact fun h' => hne h'.symm
      simp [dset, h, dget, List.find?, this]
    · by_cases h' : kv.1 == k'
      · simp [dset, h, dget, List.find?, h']
      · simp only [dset, h, if_neg, Bool.false_eq_true, not_false_iff]
        simpa [dget, List.find?, h'] using ih

theorem dget_map_self {α : Type} (keys : List String) (f : String → α)
    (ck : String) (d : α) (h : ck ∈ keys) :
    dget (keys.map (fun k => (k, f k))) ck d = f ck := by
  induction keys with
  | nil => cases h
  | cons k rest ih =>
    by_cases hk : k = ck
    · subst hk; simp [dget, List.find?]
    · have : (k == ck) = false := by simpa [beq_iff_eq] using hk
      have hm : ck ∈ rest := by
        rcases List.mem_cons.mp h with h' | h'
        · exact absurd h'.symm hk
        · exact h'
      simpa [dget, List.find?, this] using ih hm

theorem slotScarcityMin_zero (r : RosterState) (l : List String)
    (h : ∀ s ∈ l, s ≠ "BE" → r.capGet s ≤ 0) : slotScarcityMin r l 0 = 0 := by
  induction l with
  | nil => rfl
  | cons s rest ih =>
    have hrest : ∀ s' ∈ rest, s' ≠ "BE" → r.capGet s' ≤ 0 :=
      fun s' hs' => h s' (List.mem_cons_of_mem _ hs')
    by_cases hbe : s == "BE"
    · simp only [slotScarcityMin, hbe, if_pos]
      exact ih hrest
    · have hs : s ≠ "BE" := by simpa [beq_iff_eq] using hbe
      have hcap : r.capGet s ≤ 0 := h s (List.mem_cons_self _ _) hs
      show (if s == "BE" then slotScarcityMin r rest 0
        else
          let cap := r.capGet s
          if 0 < cap ∧ ((0 : Int) = 0 ∨ cap < 0) then slotScarcityMin r rest cap
          else slotScarcityMin r rest 0) = 0
      rw [if_neg hbe]
      rw [if_neg (fun hc => (not_lt.mpr hcap) hc.1)]
      exact ih hrest

/-! ## Claim theorems -/

/-- C1: for every player pool snapshot, simulated draft slot, configuration
and seeded RNG (the environment carries the RNG stream and the math
oracles), two runs of `simulate_draft` with identical inputs produce
identical pick order, simulated-team player list and per-team category
totals — the embedded engine is a pure function of its inputs. -/
theorem simulate_draft_deterministic (env : Env) (pool : List Player)
    (slot : Nat) (config : SimConfig) (r1 r2 : DraftResult)
    (h1 : r1 = simulate_draft env pool slot config)
    (h2 : r2 = simulate_draft env pool slot config) :
    r1.pick_order = r2.pick_order ∧ r1.my_players = r2.my_players
      ∧ r1.all_team_totals = r2.all_team_totals := by
  subst h1; subst h2; exact ⟨rfl, rfl, rfl⟩

/-- Witness for C1 at a concrete pool, slot, config and RNG stream. -/
theorem simulate_draft_deterministic_witness :
    (simulate_draft cexEnv poolC4 0 cfgC4).pick_order
        = (simulate_draft cexEnv poolC4 0 cfgC4).pick_order
      ∧ (simulate_draft cexEnv poolC4 0 cfgC4).my_players
        = (simulate_draft cexEnv poolC4 0 cfgC4).my_players
      ∧ (simulate_draft cexEnv poolC4 0 cfgC4).all_team_totals
        = (simulate_draft cexEnv poolC4 0 cfgC4).all_team_totals :=
  simulate_draft_deterministic cexEnv poolC4 0 cfgC4 _ _ rfl rfl

/-- C7: for every rational rank and integer team count `N > 1`,
`win_prob_from_rank rank N = (N - rank) / (N - 1)`, and in particular the
win probability of rank 1 is 1 and of rank `N` is 0. -/
theorem win_prob_from_rank_formula (rank : ℚ) (N : Int) (h : 1 < N) :
    win_prob_from_rank rank N = ((N : ℚ) - rank) / ((N : ℚ) - 1)
      ∧ win_prob_from_rank 1 N = 1
      ∧ win_prob_from_rank (N : ℚ) N = 0 := by
  have hN : ¬ N ≤ 1 := by omega
  have h1 : (1 : ℚ) < (N : ℚ) := by exact_mod_cast h
  have hne : (N : ℚ) - 1 ≠ 0 := sub_ne_zero.mpr (ne_of_gt h1)
  unfold win_prob_from_rank
  refine ⟨by simp [hN], ?_, ?_⟩
  · rw [if_neg hN]
    exact div_self hne
  · rw [if_neg hN]
    simp

/-- Witness for C7 at `N = 10`. -/
theorem win_prob_from_rank_formula_witness :
    (1 : Int) < 10 ∧ win_prob_from_rank 1 10 = 1
      ∧ win_prob_from_rank ((10 : Int) : ℚ) 10 = 0 :=
  ⟨by norm_num, (win_prob_from_rank_formula 3 10 (by norm_num)).2.1,
    (win_prob_from_rank_formula 3 10 (by norm_num)).2.2⟩

/-- C8: in `compute_mcw`'s sum over categories, the contribution
(`mcwContrib`) of a category in which the candidate's value is zero is
exactly 0, and so is the contribution of a punted category. -/
theorem compute_mcw_zero_contribution (env : Env)
    (player_zscores my_totals : List (String × ℚ))
    (other_team_totals : List (String × List ℚ))
    (strategies : List (String × String)) (N : Int) (config : Option SimConfig)
    (cat_key : String) (_hN : 1 < N) :
    (dget player_zscores cat_key 0 = 0 →
      mcwContrib env player_zscores my_totals other_team_totals strategies
        N config cat_key = 0)
    ∧ (dget strategies cat_key "neutral" = "punt" →
      mcwContrib env player_zscores my_totals other_team_totals strategies
        N config cat_key = 0) := by
  constructor
  · intro h
    unfold mcwContrib
    by_cases hs : dget strategies cat_key "neutral" == "punt"
    · simp [hs]
    · simp [hs, h]
  · intro h
    unfold mcwContrib
    simp [h]

/-- Witness for C8: a candidate with an empty z-score dict contributes 0
in category R. -/
theorem compute_mcw_zero_contribution_witness :
    (1 : Int) < 10 ∧ dget ([] : List (String × ℚ)) "zscore_r" 0 = 0
      ∧ mcwContrib cexEnv [] [] [] [] 10 none "zscore_r" = 0 :=
  ⟨by norm_num, rfl,
    (compute_mcw_zero_contribution cexEnv [] [] [] [] 10 none "zscore_r"
      (by norm_num)).1 rfl⟩

/-- C9: the ratio guards — `compute_cat_stats` substitutes a standard
deviation of 1 whenever the computed variance is not positive (in
particular for an empty relevant-player subset), and `slot_scarcity`
returns 0 instead of dividing when no starting-eligible slot of the
player has remaining capacity. -/
theorem stdev_and_scarcity_guards (env : Env) (players : List Player)
    (cat_key : String) (r : RosterState) (p : Player) :
    (catVariance players cat_key ≤ 0 → (catStatsFor env players cat_key).stdev = 1)
    ∧ (relevantPlayers players cat_key = [] →
        (catStatsFor env players cat_key).stdev = 1)
    ∧ ((∀ s ∈ p.eligible_slots_ordered, s ≠ "BE" → r.capGet s ≤ 0) →
        r.slot_scarcity p = 0) := by
  refine ⟨?_, ?_, ?_⟩
  · intro h
    unfold catStatsFor
    simp [not_lt.mpr h]
  · intro h
    have hv : catVariance players cat_key = 0 := by
      unfold catVariance catValues catCount
      simp [h]
    unfold catStatsFor
    simp [hv]
  · intro h
    unfold RosterState.slot_scarcity
    rw [slotScarcityMin_zero r _ h]
    simp

/-- Witness for C9: the empty pool and an exhausted-UTIL roster with a
DH-only player. -/
theorem stdev_and_scarcity_guards_witness :
    relevantPlayers [] "zscore_r" = []
      ∧ (catStatsFor cexEnv [] "zscore_r").stdev = 1
      ∧ (∀ s ∈ pDH.eligible_slots_ordered, s ≠ "BE" → rosterUtil0.capGet s ≤ 0)
      ∧ rosterUtil0.slot_scarcity pDH = 0 :=
  ⟨rfl,
    (stdev_and_scarcity_guards cexEnv [] "zscore_r" rosterUtil0 pDH).2.1 rfl,
    by decide,
    (stdev_and_scarcity_guards cexEnv [] "zscore_r" rosterUtil0 pDH).2.2
      (by decide)⟩

theorem addPlayerGo_fst (r : RosterState) (l : List String) :
    (addPlayerGo r l).1 = l.find? (fun s => decide (0 < r.capGet s)) := by
  induction l with
  | nil => rfl
  | cons s rest ih =>
    by_cases h : 0 < r.capGet s
    · simp [addPlayerGo, h, List.find?]
    · simp [addPlayerGo, h, List.find?, ih]

theorem addPlayerGo_none_frame (r : RosterState) (l : List String)
    (h : (addPlayerGo r l).1 = none) : (addPlayerGo r l).2 = r := by
  induction l with
  | nil => rfl
  | cons s rest ih =>
    by_cases hc : 0 < r.capGet s
    · simp [addPlayerGo, hc] at h
    · simp only [addPlayerGo, hc, if_neg, not_false_iff] at h ⊢
      exact ih h

theorem addPlayerGo_some_cap (r : RosterState) (l : List String) (s : String)
    (h : (addPlayerGo r l).1 = some s) :
    0 < r.capGet s
      ∧ (addPlayerGo r l).2.capacity = dset r.capacity s (r.capGet s - 1) := by
  induction l with
  | nil => cases h
  | cons s' rest ih =>
    by_cases hc : 0 < r.capGet s'
    · have hs : s' = s := by simpa [addPlayerGo, hc] using h
      subst hs
      exact ⟨hc, by simp [addPlayerGo, hc]⟩
    · simp only [addPlayerGo, hc, if_neg, not_false_iff] at h ⊢
      exact ih h

/-- C5 (amended): `can_add` is true iff some eligible slot (in the
player's position-derived order: each position's slot list
single-position → flex → bench, lists concatenated in position order and
deduplicated) has capacity > 0; `add_player` assigns to the *first* slot
of that order with capacity, decrements exactly that slot leaving all
others unchanged and returns it; with no such slot it returns `none` and
changes nothing; and nonnegative capacities stay nonnegative. The claim's
globally most-restrictive-first order fails for multi-position players,
see the counterexample. -/
theorem roster_add_player_spec (r : RosterState) (p : Player) :
    (r.can_add p = true ↔ ∃ s ∈ p.eligible_slots_ordered, 0 < r.capGet s)
    ∧ (r.add_player p).1
        = p.eligible_slots_ordered.find? (fun s => decide (0 < r.capGet s))
    ∧ (∀ s, (r.add_player p).1 = some s →
        (r.add_player p).2.capGet s = r.capGet s - 1
          ∧ ∀ k, k ≠ s → (r.add_player p).2.capGet k = r.capGet k)
    ∧ ((r.add_player p).1 = none → (r.add_player p).2 = r)
    ∧ ((∀ k, 0 ≤ r.capGet k) → ∀ k, 0 ≤ (r.add_player p).2.capGet k) := by
  refine ⟨?_, addPlayerGo_fst r _, ?_, addPlayerGo_none_frame r _, ?_⟩
  · unfold RosterState.can_add
    simp [List.any_eq_true]
  · intro s h
    have hs := addPlayerGo_some_cap r _ s h
    constructor
    · show dget (addPlayerGo r p.eligible_slots_ordered).2.capacity s 0 = _
      rw [hs.2]
      exact dget_dset_same _ _ _ _
    · intro k hk
      show dget (addPlayerGo r p.eligible_slots_ordered).2.capacity k 0 = _
      rw [hs.2]
      exact dget_dset_ne _ _ _ _ _ hk
  · intro hnn k
    cases hadd : (r.add_player p).1 with
    | none =>
      show 0 ≤ dget (addPlayerGo r p.eligible_slots_ordered).2.capacity k 0
      rw [addPlayerGo_none_frame r _ hadd]
      exact hnn k
    | some s =>
      have hs := addPlayerGo_some_cap r _ s hadd
      by_cases hk : k = s
      · subst hk
        show 0 ≤ dget (addPlayerGo r p.eligible_slots_ordered).2.capacity k 0
        rw [hs.2, dget_dset_same]
        omega
      · show 0 ≤ dget (addPlayerGo r p.eligible_slots_ordered).2.capacity k 0
        rw [hs.2, dget_dset_ne _ _ _ _ _ hk]
        exact hnn k

/-- C5 counterexample: for the C/1B-eligible player the ordered slots are
`[C, UTIL, BE, 1B]`; with C and UTIL exhausted (after three catcher
additions) `add_player` assigns the bench even though the single-position
slot 1B still has capacity — under the claimed
single-position → flex → bench order the bench could never precede 1B. -/
theorem add_player_order_cex :
    (rosterC3.add_player pC1B).1 = some "BE"
      ∧ pC1B.eligible_slots_ordered = ["C", "UTIL", "BE", "1B"]
      ∧ 0 < rosterC3.capGet "1B"
      ∧ "BE" ≠ "1B" := by decide

/-- Witness for C5 on a fresh roster and a catcher-only player. -/
theorem roster_add_player_spec_witness :
    (RosterState.init.add_player (mkHitterC 1)).1 = some "C"
      ∧ (RosterState.init.add_player (mkHitterC 1)).2.capGet "C"
          = RosterState.init.capGet "C" - 1
      ∧ (RosterState.init.add_player (mkHitterC 1)).2.capGet "BE"
          = RosterState.init.capGet "BE" := by
  have h := roster_add_player_spec RosterState.init (mkHitterC 1)
  have h1 : (RosterState.init.add_player (mkHitterC 1)).1 = some "C" := by decide
  exact ⟨h1, (h.2.2.1 "C" h1).1, (h.2.2.1 "C" h1).2 "BE" (by decide)⟩

/-- C3 (amended): `vona_at_position` is 0 when the candidate does not
occur in the position list; otherwise, at the candidate's first
occurrence, it is the gap to the next entry's value when one exists and
the candidate's *own* normalized value (not 0) when the candidate is
last; `compute_vona` is the maximum of these over the candidate's
eligible positions. -/
theorem compute_vona_characterization (mid : Int) (pos : String)
    (abp : List (String × List (Int × ℚ × ℚ))) (p : Player) :
    (findIdxVal (dget abp pos []) mid 0 = none → vona_at_position mid pos abp = 0)
    ∧ (∀ i v, findIdxVal (dget abp pos []) mid 0 = some (i, v) →
        (i + 1 < (dget abp pos []).length →
          vona_at_position mid pos abp
            = v - ((dget abp pos []).getD (i + 1) (0, 0, 0)).2.1)
        ∧ (¬ i + 1 < (dget abp pos []).length →
          vona_at_position mid pos abp = v))
    ∧ compute_vona p abp
        = listMaxD ((vonaPositions p).map
            (fun q => vona_at_position p.mlb_id q abp)) 0 := by
  refine ⟨?_, ?_, rfl⟩
  · intro h
    unfold vona_at_position
    rw [h]
  · intro i v h
    constructor <;> intro hlen <;> unfold vona_at_position <;> rw [h] <;>
      simp [hlen]

/-- C3 counterexample: in the two-player pool the catcher `pVonaA` is the
last (only) available player at its best eligible position C, yet its
VONA is its full normalized value 1, not 0. -/
theorem compute_vona_last_not_zero_cex :
    compute_vona pVonaA vonaAbp = 1
      ∧ findIdxVal (dget vonaAbp "C" []) pVonaA.mlb_id 0 = some (0, 1)
      ∧ (dget vonaAbp "C" []).length = 1
      ∧ (1 : ℚ) ≠ 0 :=
  of_decide_eq_true (by with_unfolding_all rfl)

/-- Witness for C3 at the concrete position list of `pVonaB`. -/
theorem compute_vona_characterization_witness :
    findIdxVal (dget vonaAbp "1B" []) pVonaB.mlb_id 0 = some (0, -1)
      ∧ vona_at_position pVonaB.mlb_id "1B" vonaAbp = -1 := by
  have hf : findIdxVal (dget vonaAbp "1B" []) pVonaB.mlb_id 0 = some (0, -1) :=
    of_decide_eq_true (by with_unfolding_all rfl)
  have hlen : ¬ (0 + 1 < (dget vonaAbp "1B" []).length) :=
    of_decide_eq_true (by with_unfolding_all rfl)
  exact ⟨hf,
    ((compute_vona_characterization pVonaB.mlb_id "1B" vonaAbp pVonaB).2.1 0 (-1)
      hf).2 hlen⟩

theorem classify_preserves (N ps : Int) (s : CategoryStanding) :
    (classifyStanding N ps s).cat_key = s.cat_key
      ∧ (classifyStanding N ps s).my_rank = s.my_rank := by
  unfold classifyStanding
  dsimp only
  split_ifs <;> exact ⟨rfl, rfl⟩

theorem countP_or_le {α : Type} (l : List α) (p q : α → Bool) :
    l.countP (fun a => p a || q a) ≤ l.countP p + l.countP q := by
  induction l with
  | nil => simp
  | cons x l ih =>
    simp only [List.countP_cons]
    cases hp : p x <;> cases hq : q x <;> simp [hp, hq] <;> omega

theorem countP_beq_eq_count {α : Type} (l : List α) (f : α → String) (k : String) :
    l.countP (fun a => f a == k) = (l.map f).count k := by
  induction l with
  | nil => rfl
  | cons x l ih =>
    simp only [List.countP_cons, List.map_cons, List.count_cons, ih]

theorem countP_contains_le {α : Type} (l : List α) (f : α → String)
    (keys : List String) (h : (l.map f).Nodup) :
    l.countP (fun a => keys.contains (f a)) ≤ keys.length := by
  induction keys with
  | nil => simp
  | cons k ks ih =>
    have h1 : l.countP (fun a => (k :: ks).contains (f a))
        ≤ l.countP (fun a => f a == k) + l.countP (fun a => ks.contains (f a)) := by
      have hc := countP_or_le l (fun a => f a == k) (fun a => ks.contains (f a))
      have he : ∀ a, ((k :: ks).contains (f a)) = ((f a == k) || ks.contains (f a)) :=
        fun a => List.contains_cons
      calc l.countP (fun a => (k :: ks).contains (f a))
          = l.countP (fun a => (f a == k) || ks.contains (f a)) :=
            List.countP_congr (fun a _ => by rw [he a])
        _ ≤ _ := hc
    have h2 : l.countP (fun a => f a == k) ≤ 1 := by
      rw [countP_beq_eq_count]
      exact List.nodup_iff_count_le_one.mp h k
    have h3 := ih
    simp only [List.length_cons]
    omega

/-- C6 (amended): once the strategy gate is active (pick count ≥ 6) and
the standings carry pairwise-distinct category keys, the standings
returned by `detect_strategy` contain at most two punt-tagged categories;
every returned punt was classified punt, and every classified punt whose
key is no longer punt-tagged (a reverted category) has rank at most that
of every kept punt — only the worst-ranked keep the tag. Below the
pick-count gate, and for repeated keys, the standings pass through
unchanged (see the counterexample). -/
theorem detect_strategy_punt_cap (standings : List CategoryStanding)
    (pc N ps : Int) (hpc : 6 ≤ pc)
    (hnd : (standings.map (·.cat_key)).Nodup) :
    ((detect_strategy standings pc N ps).countP (fun s => s.strategy == "punt") ≤ 2)
    ∧ (∀ a ∈ detect_strategy standings pc N ps, a.strategy = "punt" →
        ∃ b ∈ standings, (classifyStanding N ps b).strategy = "punt"
          ∧ b.cat_key = a.cat_key)
    ∧ (∀ a ∈ detect_strategy standings pc N ps, a.strategy = "punt" →
        ∀ b ∈ standings, (classifyStanding N ps b).strategy = "punt" →
          (¬ ∃ c ∈ detect_strategy standings pc N ps,
              c.cat_key = b.cat_key ∧ c.strategy = "punt") →
          b.my_rank ≤ a.my_rank) := by
  have h6 : ¬ pc < 6 := by omega
  unfold detect_strategy
  simp only [if_neg h6]
  set classified := standings.map (classifyStanding N ps) with hcl
  set punts := classified.filter (fun s => s.strategy == "punt") with hpunts
  set sorted := List.insertionSort (fun a b => b.my_rank ≤ a.my_rank) punts
    with hsortdef
  set keep := (sorted.take 2).map (fun s => s.cat_key) with hkeep
  haveI instTot : IsTotal CategoryStanding (fun a b => b.my_rank ≤ a.my_rank) :=
    ⟨fun a b => le_total b.my_rank a.my_rank⟩
  haveI instTrans : IsTrans CategoryStanding (fun a b => b.my_rank ≤ a.my_rank) :=
    ⟨fun a b c hab hbc => le_trans hbc hab⟩
  have hsorted : sorted.Sorted (fun a b => b.my_rank ≤ a.my_rank) := by
    rw [hsortdef]; exact List.sorted_insertionSort _ _
  have hperm : sorted.Perm punts := by
    rw [hsortdef]; exact List.perm_insertionSort _ _
  have hkeysc : classified.map (fun s => s.cat_key) = standings.map (fun s => s.cat_key) := by
    rw [hcl, List.map_map]
    exact List.map_congr_left (fun a _ => (classify_preserves N ps a).1)
  have hndc : (classified.map (fun s => s.cat_key)).Nodup := by
    rw [hkeysc]; exact hnd
  have hpsub : punts.Sublist classified := by
    rw [hpunts]; exact List.filter_sublist _
  have hndp : (punts.map (fun s => s.cat_key)).Nodup :=
    hndc.sublist (hpsub.map _)
  have hnds : (sorted.map (fun s => s.cat_key)).Nodup :=
    ((hperm.map _).nodup_iff).mpr hndp
  by_cases hlen : sorted.length > 2
  · simp only [if_pos hlen]
    set gfun : CategoryStanding → CategoryStanding := fun s =>
      if s.strategy == "punt" ∧ ¬ keep.contains s.cat_key then
        { s with strategy := "neutral" } else s with hgf
    have hgkey : ∀ s, (gfun s).cat_key = s.cat_key := by
      intro s; rw [hgf]; dsimp only; split_ifs <;> rfl
    have hgrank : ∀ s, (gfun s).my_rank = s.my_rank := by
      intro s; rw [hgf]; dsimp only; split_ifs <;> rfl
    have hgpunt : ∀ s, (gfun s).strategy = "punt"
        ↔ (s.strategy = "punt" ∧ keep.contains s.cat_key = true) := by
      intro s; rw [hgf]; dsimp only
      split_ifs with h
      · simp only [beq_iff_eq] at h
        constructor
        · intro hn
          have hne : ("neutral" : String) = "punt" := hn
          exact absurd hne (by decide)
        · intro hc; exact absurd hc.2 h.2
      · rw [Classical.not_and_iff_or_not_not] at h
        constructor
        · intro hp
          rcases h with h | h
          · exact absurd hp (by simpa [beq_iff_eq] using h)
          · exact ⟨hp, by simpa using h⟩
        · exact fun hc => hc.1
    have hgfix : ∀ s, s.strategy = "punt" → keep.contains s.cat_key = true →
        gfun s = s := by
      intro s hp hk
      rw [hgf]; dsimp only
      rw [if_neg]
      intro hc
      exact hc.2 hk
    refine ⟨?_, ?_, ?_⟩
    · rw [List.countP_map]
      have hmono : ∀ s ∈ classified,
          ((fun s => s.strategy == "punt") ∘ gfun) s = true →
            (keep.contains s.cat_key) = true := by
        intro s _ hs
        have : (gfun s).strategy = "punt" := by simpa [beq_iff_eq] using hs
        exact ((hgpunt s).mp this).2
      calc classified.countP ((fun s => s.strategy == "punt") ∘ gfun)
          ≤ classified.countP (fun s => keep.contains s.cat_key) :=
            List.countP_mono_left hmono
        _ ≤ keep.length := countP_contains_le _ _ _ hndc
        _ ≤ 2 := by
            rw [hkeep, List.length_map]
            exact List.length_take_le _ _
    · intro a ha hap
      obtain ⟨s, hs, rfl⟩ := List.mem_map.mp ha
      have hsp := (hgpunt s).mp hap
      have hgs : gfun s = s := hgfix s hsp.1 hsp.2
      rw [hcl] at hs
      obtain ⟨b, hb, rfl⟩ := List.mem_map.mp hs
      refine ⟨b, hb, hsp.1, ?_⟩
      · rw [hgkey, (classify_preserves N ps b).1]
    · intro a ha hap b hb hbp hnc
      obtain ⟨s, hs, rfl⟩ := List.mem_map.mp ha
      have hsp := (hgpunt s).mp hap
      have hcb_mem : classifyStanding N ps b ∈ classified := by
        rw [hcl]; exact List.mem_map_of_mem _ hb
      have hcb_punts : classifyStanding N ps b ∈ punts := by
        rw [hpunts]
        exact List.mem_filter.mpr ⟨hcb_mem, by simp [hbp]⟩
      have hcb_sorted : classifyStanding N ps b ∈ sorted := hperm.mem_iff.mpr hcb_punts
      have hkb : ¬ keep.contains (classifyStanding N ps b).cat_key = true := by
        intro hc
        apply hnc
        refine ⟨gfun (classifyStanding N ps b),
          List.mem_map_of_mem _ hcb_mem, ?_, ?_⟩
        · rw [hgkey, (classify_preserves N ps b).1]
        · rw [hgfix _ hbp hc]; exact hbp
      have hcb_drop : classifyStanding N ps b ∈ sorted.drop 2 := by
        have hsplit := List.take_append_drop 2 sorted
        have : classifyStanding N ps b ∈ sorted.take 2 ++ sorted.drop 2 := by
          rw [hsplit]; exact hcb_sorted
        rcases List.mem_append.mp this with h | h
        · exfalso
          apply hkb
          have : (classifyStanding N ps b).cat_key ∈ keep := by
            rw [hkeep]; exact List.mem_map_of_mem _ h
          simpa [List.contains, List.elem_iff] using this
        · exact h
      have hs_punts : s ∈ punts := by
        rw [hpunts]
        exact List.mem_filter.mpr ⟨hs, by simp [hsp.1]⟩
      have hs_sorted : s ∈ sorted := hperm.mem_iff.mpr hs_punts
      have hmemkeep : s.cat_key ∈ keep := by
        simpa [List.contains, List.elem_iff] using hsp.2
      obtain ⟨a', ha', hka'⟩ := by
        rw [hkeep] at hmemkeep
        exact List.mem_map.mp hmemkeep
      have ha'sorted : a' ∈ sorted := (List.take_sublist 2 sorted).mem ha'
      have haa : a' = s :=
        List.inj_on_of_nodup_map hnds ha'sorted hs_sorted hka'
      have hcross : ∀ x ∈ sorted.take 2, ∀ y ∈ sorted.drop 2,
          y.my_rank ≤ x.my_rank := by
        have hsplit := List.take_append_drop 2 sorted
        have hpw : List.Pairwise (fun a b => b.my_rank ≤ a.my_rank)
            (sorted.take 2 ++ sorted.drop 2) := by
          rw [hsplit]; exact hsorted
        exact fun x hx y hy => (List.pairwise_append.mp hpw).2.2 x hx y hy
      have hrank := hcross a' ha' _ hcb_drop
      rw [haa] at hrank
      rw [(classify_preserves N ps b).2] at hrank
      calc b.my_rank ≤ s.my_rank := hrank
        _ = (gfun s).my_rank := (hgrank s).symm
  · simp only [if_neg hlen]
    refine ⟨?_, ?_, ?_⟩
    · have hc : classified.countP (fun s => s.strategy == "punt") = punts.length := by
        rw [hpunts, List.countP_eq_length_filter]
      rw [hc]
      have hl := hperm.length_eq
      omega
    · intro a ha hap
      rw [hcl] at ha
      obtain ⟨b, hb, rfl⟩ := List.mem_map.mp ha
      exact ⟨b, hb, hap, ((classify_preserves N ps b).1).symm⟩
    · intro a ha hap b hb hbp hnc
      exfalso
      apply hnc
      refine ⟨classifyStanding N ps b, ?_, (classify_preserves N ps b).1, hbp⟩
      rw [hcl]
      exact List.mem_map_of_mem _ hb

/-- C6 counterexample: three punt-qualifying standings sharing one
category key, at pick count 6 (the gate is active): the kept-key set
collapses to that single key, nothing is reverted, and three punt tags
survive. -/
theorem detect_strategy_three_punts_cex :
    (detect_strategy puntTriple 6 10 6).countP (fun s => s.strategy == "punt") = 3 :=
  of_decide_eq_true (by with_unfolding_all rfl)

/-- Witness for C6 on two distinct-key punt-qualifying standings. -/
theorem detect_strategy_punt_cap_witness :
    (6 : Int) ≤ 6 ∧ (puntPair.map (·.cat_key)).Nodup
      ∧ (detect_strategy puntPair 6 10 6).countP
          (fun s => s.strategy == "punt") ≤ 2 :=
  ⟨le_refl 6, by decide,
    (detect_strategy_punt_cap puntPair 6 10 6 (le_refl 6) (by decide)).1⟩

theorem dfind?_map_self {α : Type} (keys : List String) (f : String → α)
    (ck : String) (h : ck ∈ keys) :
    dfind? (keys.map (fun k => (k, f k))) ck = some (f ck) := by
  induction keys with
  | nil => cases h
  | cons k rest ih =>
    by_cases hk : k = ck
    · subst hk; simp [dfind?, List.find?]
    · have hbe : (k == ck) = false := by simpa [beq_iff_eq] using hk
      have hm : ck ∈ rest := by
        rcases List.mem_cons.mp h with h' | h'
        · exact absurd h'.symm hk
        · exact h'
      simpa [dfind?, List.find?, hbe] using ih hm

/-- C10: `evaluate_draft` gives every one of the categories of
`ALL_CAT_KEYS` a win-probability entry — punted or not, none skipped —
computed as the win probability of the simulated team's rank of its final
total against the descending-sorted totals of all other teams; the
returned expected weekly category wins is the sum of all these entries;
and the roster-composition diagnostics (hitter/pitcher counts, first
pitcher round, bench-pitcher/SP/RP counts) are reported alongside. -/
theorem evaluate_draft_full_field (result : DraftResult) (num_teams : Nat)
    (cat_key : String) (hck : cat_key ∈ ALL_CAT_KEYS) :
    (dfind? (evaluate_draft result num_teams).cat_win_probs cat_key
        = some (win_prob_from_rank
            (compute_rank
              (dget (result.all_team_totals.getD result.my_slot []) cat_key 0)
              (List.insertionSort (fun a b : ℚ => b ≤ a)
                (((List.range num_teams).filter (fun t => t ≠ result.my_slot)).map
                  (fun t => dget (result.all_team_totals.getD t []) cat_key 0))))
            (num_teams : Int)))
    ∧ (evaluate_draft result num_teams).cat_win_probs.length = ALL_CAT_KEYS.length
    ∧ (evaluate_draft result num_teams).expected_wins
        = ((evaluate_draft result num_teams).cat_win_probs.map (·.2)).sum
    ∧ (evaluate_draft result num_teams).hitter_count
        = result.my_players.countP (fun p => p.player_type == "hitter")
    ∧ (evaluate_draft result num_teams).pitcher_count
        = result.my_players.countP (fun p => p.player_type == "pitcher")
    ∧ (evaluate_draft result num_teams).first_pitcher_round
        = (result.my_players.findIdx? (fun p => p.player_type == "pitcher")).map (· + 1)
    ∧ (evaluate_draft result num_teams).bench_pitcher_count = result.bench_pitcher_count
    ∧ (evaluate_draft result num_teams).sp_count = result.sp_count
    ∧ (evaluate_draft result num_teams).rp_count = result.rp_count := by
  refine ⟨?_, by simp [evaluate_draft], rfl, rfl, rfl, ?_, rfl, rfl, rfl⟩
  · unfold evaluate_draft
    dsimp only
    exact dfind?_map_self _ _ _ hck
  · unfold evaluate_draft
    dsimp only
    cases h : result.my_players.findIdx? (fun p => p.player_type == "pitcher") <;>
      simp [h]

/-- Witness for C10 on a concrete completed result. -/
theorem evaluate_draft_full_field_witness :
    "zscore_r" ∈ ALL_CAT_KEYS
      ∧ (evaluate_draft (⟨0, [], [], [], 3, 4, 5⟩ : DraftResult) 2).cat_win_probs.length
          = ALL_CAT_KEYS.length
      ∧ (evaluate_draft (⟨0, [], [], [], 3, 4, 5⟩ : DraftResult) 2).bench_pitcher_count
          = (⟨0, [], [], [], 3, 4, 5⟩ : DraftResult).bench_pitcher_count :=
  ⟨by decide,
    (evaluate_draft_full_field ⟨0, [], [], [], 3, 4, 5⟩ 2 "zscore_r" (by decide)).2.1,
    (evaluate_draft_full_field ⟨0, [], [], [], 3, 4, 5⟩ 2 "zscore_r"
      (by decide)).2.2.2.2.2.2.1⟩

theorem getD_set_self {α : Type} (l : List α) (i : Nat) (a d : α)
    (h : i < l.length) : (l.set i a).getD i d = a := by
  rw [List.getD_eq_getElem?_getD, List.getElem?_set_self h]
  rfl

theorem getD_set_ne {α : Type} (l : List α) (i j : Nat) (a d : α) (h : i ≠ j) :
    (l.set i a).getD j d = l.getD j d := by
  rw [List.getD_eq_getElem?_getD, List.getElem?_set_ne h, ← List.getD_eq_getElem?_getD]

theorem dget_foldl_not_mem (keys : List String) (d z : List (String × ℚ)) (w : ℚ)
    (ck : String) (h : ck ∉ keys) :
    dget (keys.foldl (fun acc k => dset acc k (dget acc k 0 + dget z k 0 * w)) d) ck 0
      = dget d ck 0 := by
  induction keys generalizing d with
  | nil => rfl
  | cons k rest ih =>
    have hk : ck ≠ k := fun he => h (he ▸ List.mem_cons_self _ _)
    have hr : ck ∉ rest := fun hm => h (List.mem_cons_of_mem _ hm)
    simp only [List.foldl_cons]
    rw [ih _ hr, dget_dset_ne _ _ _ _ _ hk]

theorem dget_foldl_add (keys : List String) (d z : List (String × ℚ)) (w : ℚ)
    (hnd : keys.Nodup) (ck : String) (hck : ck ∈ keys) :
    dget (keys.foldl (fun acc k => dset acc k (dget acc k 0 + dget z k 0 * w)) d) ck 0
      = dget d ck 0 + dget z ck 0 * w := by
  induction keys generalizing d with
  | nil => cases hck
  | cons k rest ih =>
    simp only [List.foldl_cons]
    by_cases he : ck = k
    · subst he
      have hnot : ck ∉ rest := (List.nodup_cons.mp hnd).1
      rw [dget_foldl_not_mem _ _ _ _ _ hnot, dget_dset_same]
    · have hm : ck ∈ rest := by
        rcases List.mem_cons.mp hck with h' | h'
        · exact absurd h' he
        · exact h'
      rw [ih _ (List.nodup_cons.mp hnd).2 hm, dget_dset_ne _ _ _ _ _ he]

/-- C4 (amended): the shared post-pick update removes the chosen player's
id from the pool, assigns via `add_player` (updating only the picking
team's roster), appends the player to that team's roster list, and adds
the player's per-category values to that team's running totals scaled by
the bench-contribution multiplier exactly when the assigned slot is the
bench — at full weight otherwise, *including* opponent fallback picks
whose `add_player` returns no slot at all (see the counterexample);
other teams' totals are untouched; and both the simulated team's branch
and the opponent branch reach this update with their chosen player. -/
theorem pick_update_spec (ctx : Ctx) (pick_idx team_idx : Nat) (chosen : Player)
    (st : SimState) :
    ((applyPick ctx pick_idx team_idx chosen st).available
        = st.available.filter (fun id => id != chosen.mlb_id)
      ∧ (applyPick ctx pick_idx team_idx chosen st).rosters
          = st.rosters.set team_idx
              ((st.rosters.getD team_idx RosterState.init).add_player chosen).2
      ∧ (team_idx < st.team_totals.length →
          ∀ ck ∈ ALL_CAT_KEYS,
            dget ((applyPick ctx pick_idx team_idx chosen st).team_totals.getD
                team_idx []) ck 0
              = dget (st.team_totals.getD team_idx []) ck 0
                + dget chosen.zscores ck 0 *
                  (if ((st.rosters.getD team_idx RosterState.init).add_player
                      chosen).1 == some "BE" then
                    ctx.env.benchContribution else 1))
      ∧ (∀ t, t ≠ team_idx →
          (applyPick ctx pick_idx team_idx chosen st).team_totals.getD t []
            = st.team_totals.getD t [])
      ∧ (team_idx < st.team_players.length →
          (applyPick ctx pick_idx team_idx chosen st).team_players.getD team_idx []
            = st.team_players.getD team_idx [] ++ [chosen]))
    ∧ (snake_order pick_idx ctx.cfg.NUM_TEAMS = ctx.my_slot →
        myChoice ctx pick_idx (refreshCatStats ctx pick_idx st) = some chosen →
        simStep ctx pick_idx st
          = applyPick ctx pick_idx ctx.my_slot chosen
              { refreshCatStats ctx pick_idx st with
                my_pick_count := (refreshCatStats ctx pick_idx st).my_pick_count + 1
                my_players := (refreshCatStats ctx pick_idx st).my_players ++ [chosen]
                pick_order :=
                  (refreshCatStats ctx pick_idx st).pick_order ++ [chosen.mlb_id] })
    ∧ (∀ k, snake_order pick_idx ctx.cfg.NUM_TEAMS ≠ ctx.my_slot →
        opponentPick ctx st
            (st.rosters.getD (snake_order pick_idx ctx.cfg.NUM_TEAMS)
              RosterState.init) = (some chosen, k) →
        simStep ctx pick_idx st
          = applyPick ctx pick_idx (snake_order pick_idx ctx.cfg.NUM_TEAMS) chosen
              { st with rng_idx := k }) := by
  refine ⟨⟨rfl, rfl, ?_, ?_, ?_⟩, ?_, ?_⟩
  · intro hlt ck hck
    show dget ((st.team_totals.set team_idx _).getD team_idx []) ck 0 = _
    rw [getD_set_self _ _ _ _ hlt]
    exact dget_foldl_add ALL_CAT_KEYS _ _ _ (by decide) ck hck
  · intro t ht
    show (st.team_totals.set team_idx _).getD t [] = _
    exact getD_set_ne _ _ _ _ _ (fun he => ht he.symm)
  · intro hlt
    show (st.team_players.set team_idx _).getD team_idx [] = _
    rw [getD_set_self _ _ _ _ hlt]
  · intro h1 h2
    unfold simStep
    dsimp only
    rw [if_pos h1, h2, h1]
  · intro k h1 h2
    unfold simStep
    dsimp only
    rw [if_neg h1, h2]

set_option maxRecDepth 200000 in
/-- C4 counterexample: in the 12-round two-team run exactly one executed
pick (an opponent fallback with every eligible slot full) is *not*
assigned to any roster slot — `add_player` returns `none`, yet the player
is still drafted and counted at full weight. -/
theorem pick_unassigned_cex :
    (simulateFinal ctxC4).pick_log.countP (fun e => e.slot.isNone) = 1
      ∧ (poolC4.map (·.mlb_id)).Nodup
      ∧ (simulateFinal ctxC4).pick_log.length = 23 :=
  of_decide_eq_true (by with_unfolding_all rfl)

/-- Witness for C4 on the one-team context at pick 0. -/
theorem pick_update_spec_witness :
    ((0 : Nat) < (initState ctxTiny).team_totals.length)
      ∧ "zscore_r" ∈ ALL_CAT_KEYS
      ∧ dget ((applyPick ctxTiny 0 0 (mkHitterC 1)
            (initState ctxTiny)).team_totals.getD 0 []) "zscore_r" 0
          = dget ((initState ctxTiny).team_totals.getD 0 []) "zscore_r" 0
            + dget (mkHitterC 1).zscores "zscore_r" 0 *
              (if (((initState ctxTiny).rosters.getD 0
                  RosterState.init).add_player (mkHitterC 1)).1 == some "BE" then
                ctxTiny.env.benchContribution else 1) :=
  ⟨by decide, by decide,
    (pick_update_spec ctxTiny 0 0 (mkHitterC 1) (initState ctxTiny)).1.2.2.1
      (by decide) "zscore_r" (by decide)⟩

theorem bestStep_some (can : Player → Bool) (score : Player → ℚ)
    (acc : Option (ℚ × Player)) (p : Player) (bs : ℚ × Player)
    (h : bestStep can score acc p = some bs) : acc = some bs ∨ bs.2 = p := by
  unfold bestStep at h
  by_cases hc : can p
  · simp only [hc, not_true_eq_false, if_false] at h
    cases acc with
    | none =>
      injection h with h1
      exact Or.inr (by rw [← h1])
    | some b =>
      dsimp only at h
      by_cases hgt : score p > b.1
      · rw [if_pos hgt] at h
        injection h with h1
        exact Or.inr (by rw [← h1])
      · rw [if_neg hgt] at h
        exact Or.inl h
  · simp only [hc, not_false_eq_true, if_true] at h
    exact Or.inl h

theorem foldl_bestStep_mem (can : Player → Bool) (score : Player → ℚ)
    (l : List Player) :
    ∀ (acc : Option (ℚ × Player)) (bs : ℚ × Player),
      l.foldl (bestStep can score) acc = some bs → acc = some bs ∨ bs.2 ∈ l := by
  induction l with
  | nil => exact fun acc bs h => Or.inl h
  | cons x l ih =>
    intro acc bs h
    rcases ih _ _ h with h' | h'
    · rcases bestStep_some can score acc x bs h' with h'' | h''
      · exact Or.inl h''
      · exact Or.inr (h'' ▸ List.mem_cons_self _ _)
    · exact Or.inr (List.mem_cons_of_mem _ h')

theorem choice_shape {avail : List Player} {can : Player → Bool}
    {score : Player → ℚ} {p : Player}
    (h : (match avail.foldl (bestStep can score) none with
          | some bs => some bs.2
          | none => avail.find? can) = some p) : p ∈ avail := by
  cases hf : avail.foldl (bestStep can score) none with
  | some bs =>
    rw [hf] at h
    injection h with h1
    rcases foldl_bestStep_mem can score avail none bs hf with h' | h'
    · cases h'
    · exact h1 ▸ h'
  | none =>
    rw [hf] at h
    exact List.mem_of_find?_eq_some h

theorem availPlayers_mem_available (ctx : Ctx) (st : SimState) (p : Player)
    (h : p ∈ availPlayers ctx st) : p.mlb_id ∈ st.available := by
  unfold availPlayers at h
  have := List.of_mem_filter h
  simpa [List.contains, List.elem_iff] using this

theorem myChoice_mem (ctx : Ctx) (i : Nat) (st : SimState) (p : Player)
    (h : myChoice ctx i st = some p) : p.mlb_id ∈ st.available := by
  unfold myChoice at h
  dsimp only at h
  exact availPlayers_mem_available ctx st p (choice_shape h)

theorem playerById_id (ctx : Ctx) (m : Int) (p : Player)
    (h : playerById ctx m = some p) : p.mlb_id = m := by
  unfold playerById at h
  have := List.find?_some h
  simpa [beq_iff_eq] using this

theorem oppCands_inv (avail : List Int) (sigma : ℚ) (g : Nat → ℚ)
    (l : List Player) :
    ∀ (acc : List (ℚ × Int) × Nat),
      (∀ c ∈ acc.1, c.2 ∈ avail) →
      ∀ c ∈ (l.foldl (fun (acc : List (ℚ × Int) × Nat) p =>
          if avail.contains p.mlb_id then
            (acc.1 ++ [(p.espn_adp.getD 999 + sigma * g acc.2, p.mlb_id)],
              acc.2 + 1)
          else acc) acc).1,
        c.2 ∈ avail := by
  induction l with
  | nil => exact fun acc h => h
  | cons x l ih =>
    intro acc hacc
    simp only [List.foldl_cons]
    by_cases hx : avail.contains x.mlb_id
    · rw [if_pos hx]
      apply ih
      intro c hc
      rcases List.mem_append.mp hc with h | h
      · exact hacc c h
      · have hcx : c = (x.espn_adp.getD 999 + sigma * g acc.2, x.mlb_id) := by
          simpa using h
        rw [hcx]
        simpa [List.contains, List.elem_iff] using hx
    · rw [if_neg hx]
      exact ih acc hacc

theorem oppPick_shape {cands : List (ℚ × Int)} {ctx : Ctx}
    {roster : RosterState} {p : Player} {k k' : Nat}
    (h : (match cands.find? (fun c =>
            match playerById ctx c.2 with
            | some p => roster.can_add p
            | none => false) with
          | some c => (playerById ctx c.2, k')
          | none =>
            match cands with
            | [] => (none, k')
            | c :: _ => (playerById ctx c.2, k')) = (some p, k)) :
    ∃ c ∈ cands, playerById ctx c.2 = some p := by
  cases hf : cands.find? (fun c =>
      match playerById ctx c.2 with
      | some p => roster.can_add p
      | none => false) with
  | some c =>
    rw [hf] at h
    injection h with h1 h2
    exact ⟨c, List.mem_of_find?_eq_some hf, h1⟩
  | none =>
    rw [hf] at h
    cases cands with
    | nil =>
      injection h with h1 h2
      cases h1
    | cons c rest =>
      injection h with h1 h2
      exact ⟨c, List.mem_cons_self _ _, h1⟩

theorem opponentPick_mem (ctx : Ctx) (st : SimState) (roster : RosterState)
    (p : Player) (k : Nat) (h : opponentPick ctx st roster = (some p, k)) :
    p.mlb_id ∈ st.available := by
  unfold opponentPick at h
  dsimp only at h
  obtain ⟨c, hc, hpid⟩ := oppPick_shape h
  have hperm : List.Perm
      (List.insertionSort (fun a b : ℚ × Int => a.1 ≤ b.1)
        ((ctx.all_players.foldl (fun (acc : List (ℚ × Int) × Nat) p =>
          if st.available.contains p.mlb_id then
            (acc.1 ++ [(p.espn_adp.getD 999
                + ctx.cfg.ADP_SIGMA * ctx.env.gauss acc.2, p.mlb_id)],
              acc.2 + 1)
          else acc) ([], st.rng_idx)).1))
      ((ctx.all_players.foldl (fun (acc : List (ℚ × Int) × Nat) p =>
          if st.available.contains p.mlb_id then
            (acc.1 ++ [(p.espn_adp.getD 999
                + ctx.cfg.ADP_SIGMA * ctx.env.gauss acc.2, p.mlb_id)],
              acc.2 + 1)
          else acc) ([], st.rng_idx)).1) :=
    List.perm_insertionSort _ _
  have hcb : c ∈ (ctx.all_players.foldl (fun (acc : List (ℚ × Int) × Nat) p =>
      if st.available.contains p.mlb_id then
        (acc.1 ++ [(p.espn_adp.getD 999
            + ctx.cfg.ADP_SIGMA * ctx.env.gauss acc.2, p.mlb_id)],
          acc.2 + 1)
      else acc) ([], st.rng_idx)).1 := hperm.mem_iff.mp hc
  have hcav : c.2 ∈ st.available :=
    oppCands_inv st.available ctx.cfg.ADP_SIGMA ctx.env.gauss ctx.all_players
      ([], st.rng_idx) (by intro c hc'; cases hc') c hcb
  rw [playerById_id ctx c.2 p hpid]
  exact hcav

theorem snake_lt (i teams : Nat) (h : 0 < teams) : snake_order i teams < teams := by
  unfold snake_order
  dsimp only
  split_ifs
  · exact Nat.mod_lt _ h
  · omega

theorem teamPickCount_succ (teams t i : Nat) :
    teamPickCount teams t (i + 1)
      = teamPickCount teams t i + (if snake_order i teams == t then 1 else 0) := by
  unfold teamPickCount
  rw [List.range_succ, List.countP_append]
  congr 1
  simp [List.countP_cons]

theorem teamPickCount_mono (teams t : Nat) {i j : Nat} (h : i ≤ j) :
    teamPickCount teams t i ≤ teamPickCount teams t j := by
  unfold teamPickCount
  exact (List.range_sublist.mpr h).countP_le _

theorem simInv_mono (ctx : Ctx) {i j : Nat} (h : i ≤ j) (st : SimState)
    (hInv : SimInv ctx i st) : SimInv ctx j st := by
  obtain ⟨h1, h2, h3, h4, h5⟩ := hInv
  exact ⟨h1, h2, h3, h4,
    fun t ht => le_trans (h5 t ht) (teamPickCount_mono _ _ h)⟩

theorem applyPick_inv (ctx : Ctx) (i : Nat) (st : SimState) (p : Player)
    (hp : p.mlb_id ∈ st.available) (h0 : 0 < ctx.cfg.NUM_TEAMS)
    (hInv : SimInv ctx i st) :
    SimInv ctx (i + 1)
      (applyPick ctx i (snake_order i ctx.cfg.NUM_TEAMS) p st) := by
  obtain ⟨h1, h2, h3, h4, h5⟩ := hInv
  have hteam_lt : snake_order i ctx.cfg.NUM_TEAMS < ctx.cfg.NUM_TEAMS :=
    snake_lt i _ h0
  have hpid_not : p.mlb_id ∉ st.pick_log.map (fun e => e.mlb_id) :=
    fun hmem => (h2 _ hmem) hp
  unfold SimInv applyPick
  dsimp only
  refine ⟨?_, ?_, ?_, ?_, ?_⟩
  · rw [List.map_append]
    rw [List.nodup_append]
    refine ⟨h1, by simp, ?_⟩
    intro a ha hb
    simp only [List.map_cons, List.map_nil, List.mem_singleton] at hb
    exact hpid_not (hb ▸ ha)
  · intro id hid hmem
    have hmem' := List.mem_of_mem_filter hmem
    have hpred := List.of_mem_filter hmem
    rw [List.map_append] at hid
    rcases List.mem_append.mp hid with ha | ha
    · exact (h2 id ha) hmem'
    · simp only [List.map_cons, List.map_nil, List.mem_singleton] at ha
      rw [ha] at hpred
      simp at hpred
  · rw [List.length_set]
    exact h3
  · intro t ht
    rw [List.filter_append, List.map_append]
    by_cases hteq : t = snake_order i ctx.cfg.NUM_TEAMS
    · subst hteq
      rw [getD_set_self _ _ _ _ (h3 ▸ ht)]
      rw [List.map_append, h4 _ ht]
      congr 1
      simp
    · rw [getD_set_ne _ _ _ _ _ (fun he => hteq he.symm)]
      rw [h4 t ht]
      have : (List.filter (fun e => e.team_idx == t)
          [(⟨i, snake_order i ctx.cfg.NUM_TEAMS, p.mlb_id,
            ((st.rosters.getD (snake_order i ctx.cfg.NUM_TEAMS)
              RosterState.init).add_player p).1⟩ : PickEvent)]) = [] := by
        simp [beq_iff_eq]
        exact fun he => hteq he.symm
      rw [this]
      simp
  · intro t ht
    rw [teamPickCount_succ]
    by_cases hteq : t = snake_order i ctx.cfg.NUM_TEAMS
    · subst hteq
      rw [getD_set_self _ _ _ _ (h3 ▸ ht)]
      rw [List.length_append]
      have : (snake_order i ctx.cfg.NUM_TEAMS == snake_order i ctx.cfg.NUM_TEAMS)
          = true := beq_self_eq_true _
      rw [this]
      simp only [if_true, List.length_cons, List.length_nil]
      have := h5 _ ht
      omega
    · rw [getD_set_ne _ _ _ _ _ (fun he => hteq he.symm)]
      have := h5 t ht
      omega

theorem simStep_inv (ctx : Ctx) (i : Nat) (st : SimState)
    (h0 : 0 < ctx.cfg.NUM_TEAMS) (hInv : SimInv ctx i st) :
    SimInv ctx (i + 1) (simStep ctx i st) := by
  unfold simStep
  dsimp only
  by_cases hb : snake_order i ctx.cfg.NUM_TEAMS = ctx.my_slot
  · rw [if_pos hb]
    have hInv1 : SimInv ctx i (refreshCatStats ctx i st) := by
      unfold refreshCatStats
      dsimp only
      split_ifs <;> exact hInv
    cases hc : myChoice ctx i (refreshCatStats ctx i st) with
    | none =>
      exact simInv_mono ctx (Nat.le_succ i) _ hInv1
    | some p =>
      have hmem := myChoice_mem ctx i _ p hc
      exact applyPick_inv ctx i _ p hmem h0 hInv1
  · rw [if_neg hb]
    rcases hoc : opponentPick ctx st
        (st.rosters.getD (snake_order i ctx.cfg.NUM_TEAMS) RosterState.init)
      with ⟨c, k⟩
    dsimp only
    cases c with
    | none =>
      exact simInv_mono ctx (Nat.le_succ i) _ hInv
    | some p =>
      have hmem := opponentPick_mem ctx st _ p k hoc
      exact applyPick_inv ctx i _ p hmem h0 hInv

theorem simLoop_inv (ctx : Ctx) (h0 : 0 < ctx.cfg.NUM_TEAMS) :
    ∀ (n i : Nat) (st : SimState),
      SimInv ctx i st → SimInv ctx (i + n) (simLoop ctx n i st) := by
  intro n
  induction n with
  | zero => intro i st h; simpa using h
  | succ n ih =>
    intro i st h
    show SimInv ctx (i + (n + 1))
      (if st.available.isEmpty then st
       else simLoop ctx n (i + 1) (simStep ctx i st))
    split_ifs with he
    · exact simInv_mono ctx (Nat.le_add_right i (n + 1)) st h
    · have hstep := simStep_inv ctx i st h0 h
      have := ih (i + 1) _ hstep
      have harith : i + 1 + n = i + (n + 1) := by omega
      rw [harith] at this
      exact this

theorem simInv_init (ctx : Ctx) : SimInv ctx 0 (initState ctx) := by
  unfold SimInv initState
  dsimp only
  refine ⟨by simp, by simp, by simp, ?_, ?_⟩
  · intro t ht
    rw [List.getD_eq_getElem?_getD, List.getElem?_replicate]
    simp [ht]
  · intro t ht
    rw [List.getD_eq_getElem?_getD, List.getElem?_replicate]
    simp [ht]

theorem snake_block (teams r j _t : Nat) (hj : j < teams) :
    snake_order (teams * r + j) teams
      = (if r % 2 = 0 then j else teams - 1 - j) := by
  have hpos : 0 < teams := Nat.lt_of_le_of_lt (Nat.zero_le j) hj
  have hdiv : (teams * r + j) / teams = r := by
    rw [Nat.add_comm, Nat.add_mul_div_left _ _ hpos, Nat.div_eq_of_lt hj]
    omega
  have hmod : (teams * r + j) % teams = j := by
    rw [Nat.add_comm, Nat.add_mul_mod_self_left, Nat.mod_eq_of_lt hj]
  unfold snake_order
  dsimp only
  rw [hdiv, hmod]

theorem countEqRange (n t : Nat) :
    (List.range n).countP (fun j => j == t) = if t < n then 1 else 0 := by
  induction n with
  | zero => simp
  | succ n ih =>
    rw [List.range_succ, List.countP_append, ih]
    by_cases h : t < n
    · have hne : (n == t) = false := by
        simp [beq_iff_eq]
        omega
      have h1 : t < n + 1 := by omega
      simp [hne, h, h1]
    · by_cases he : t = n
      · subst he
        simp
      · have hne : (n == t) = false := by
          simp [beq_iff_eq]
          omega
        have h2 : ¬ t < n + 1 := by omega
        simp [hne, h, h2]

theorem countBlock (teams r t : Nat) (ht : t < teams) :
    (List.range teams).countP
      (fun j => snake_order (teams * r + j) teams == t) = 1 := by
  have hcongr : ∀ j ∈ List.range teams,
      (snake_order (teams * r + j) teams == t)
        = ((if r % 2 = 0 then j else teams - 1 - j) == t) := by
    intro j hj
    rw [snake_block teams r j t (List.mem_range.mp hj)]
  rw [List.countP_congr (fun j hj => by rw [hcongr j hj])]
  by_cases hr : r % 2 = 0
  · have : ∀ j ∈ List.range teams,
        ((if r % 2 = 0 then j else teams - 1 - j) == t) = (j == t) := by
      intro j _
      rw [if_pos hr]
    rw [List.countP_congr (fun j hj => by rw [this j hj])]
    rw [countEqRange]
    simp [ht]
  · have : ∀ j ∈ List.range teams,
        ((if r % 2 = 0 then j else teams - 1 - j) == t) = (j == teams - 1 - t) := by
      intro j hj
      have hj' := List.mem_range.mp hj
      rw [if_neg hr]
      rw [Bool.eq_iff_iff]
      simp only [beq_iff_eq]
      constructor <;> intro h <;> omega
    rw [List.countP_congr (fun j hj => by rw [this j hj])]
    rw [countEqRange]
    have : teams - 1 - t < teams := by omega
    simp [this]

theorem teamPickCount_total (teams rounds t : Nat) (ht : t < teams) :
    teamPickCount teams t (teams * rounds) = rounds := by
  induction rounds with
  | zero => simp [teamPickCount]
  | succ r ih =>
    have hmul : teams * (r + 1) = teams * r + teams := by ring
    unfold teamPickCount at ih ⊢
    rw [hmul, List.range_add, List.countP_append, ih, List.countP_map]
    have : ((List.range teams).countP
        ((fun i => snake_order i teams == t) ∘ (fun j => teams * r + j))) = 1 := by
      have := countBlock teams r t ht
      simpa [Function.comp] using this
    omega

/-- C2 (amended): in every completed run of `simulate_draft`, each player
id is drafted at most once — appearing on at most one team's roster, with
no roster repeating an id — unconditionally; and, provided the configured
number of rounds does not exceed the total slot capacity (the default 25
rounds equals the capacity 25), every team's final roster size is at most
the total slot capacity. Opponent fallback picks let a roster grow past
the slot capacity once `NUM_ROUNDS` exceeds it, so the size bound — and
only it — needs the proviso (see the counterexample). -/
theorem simulate_draft_core_invariants (ctx : Ctx) :
    (∀ t, t < ctx.cfg.NUM_TEAMS →
      (((simulateFinal ctx).team_players.getD t []).map (fun p => p.mlb_id)).Nodup)
    ∧ (∀ t t', t < ctx.cfg.NUM_TEAMS → t' < ctx.cfg.NUM_TEAMS → t ≠ t' →
        ∀ id, id ∈ ((simulateFinal ctx).team_players.getD t []).map
            (fun p => p.mlb_id) →
          id ∉ ((simulateFinal ctx).team_players.getD t' []).map
            (fun p => p.mlb_id))
    ∧ ((ctx.cfg.NUM_ROUNDS : Int) ≤ TOTAL_ROSTER_SIZE →
        ∀ t, t < ctx.cfg.NUM_TEAMS →
          ((((simulateFinal ctx).team_players.getD t []).length : Int))
            ≤ TOTAL_ROSTER_SIZE) := by
  by_cases h0 : 0 < ctx.cfg.NUM_TEAMS
  · have hInv : SimInv ctx (0 + ctx.cfg.NUM_TEAMS * ctx.cfg.NUM_ROUNDS)
        (simulateFinal ctx) :=
      simLoop_inv ctx h0 (ctx.cfg.NUM_TEAMS * ctx.cfg.NUM_ROUNDS) 0
        (initState ctx) (simInv_init ctx)
    obtain ⟨h1, h2, h3, h4, h5⟩ := hInv
    refine ⟨?_, ?_, ?_⟩
    · intro t ht
      rw [h4 t ht]
      exact h1.sublist ((List.filter_sublist _).map _)
    · intro t t' ht ht' htt id hidt hidt'
      rw [h4 t ht] at hidt
      rw [h4 t' ht'] at hidt'
      obtain ⟨e, he, hei⟩ := List.mem_map.mp hidt
      obtain ⟨e', he', hei'⟩ := List.mem_map.mp hidt'
      have heL := List.mem_of_mem_filter he
      have heL' := List.mem_of_mem_filter he'
      have het : e.team_idx = t := by
        have := List.of_mem_filter he
        simpa [beq_iff_eq] using this
      have het' : e'.team_idx = t' := by
        have := List.of_mem_filter he'
        simpa [beq_iff_eq] using this
      have hee : e = e' :=
        List.inj_on_of_nodup_map h1 heL heL' (by rw [hei, hei'])
      exact htt (by rw [← het, ← het', hee])
    · intro hr t ht
      have hb := h5 t ht
      rw [Nat.zero_add] at hb
      rw [teamPickCount_total _ _ _ ht] at hb
      have : ((((simulateFinal ctx).team_players.getD t []).length : Int))
          ≤ (ctx.cfg.NUM_ROUNDS : Int) := by exact_mod_cast hb
      omega
  · have hz : ctx.cfg.NUM_TEAMS = 0 := by omega
    exact ⟨fun t ht => absurd ht (by omega),
      fun t t' ht => absurd ht (by omega),
      fun _ t ht => absurd ht (by omega)⟩

set_option maxRecDepth 500000 in
/-- C2 counterexample: two teams, 26 rounds (one more than the 25-slot
capacity), 38 distinct catcher-only players: the opponent picks on every
turn (falling back when nothing fits) and finishes with 26 players —
more than the total slot capacity. -/
theorem roster_capacity_exceeded_cex :
    TOTAL_ROSTER_SIZE < (((simulateFinal ctxC2).team_players.getD 1 []).length : Int)
      ∧ (poolC2.map (·.mlb_id)).Nodup
      ∧ ((simulateFinal ctxC2).team_players.getD 1 []).length = 26 :=
  of_decide_eq_true (by with_unfolding_all rfl)

/-- Witness for C2 on the one-team one-round context, discharging the
size-bound proviso concretely. -/
theorem simulate_draft_core_invariants_witness :
    ((ctxTiny.cfg.NUM_ROUNDS : Int) ≤ TOTAL_ROSTER_SIZE)
      ∧ (∀ t, t < ctxTiny.cfg.NUM_TEAMS →
          ((((simulateFinal ctxTiny).team_players.getD t []).length : Int))
            ≤ TOTAL_ROSTER_SIZE) :=
  ⟨by decide, (simulate_draft_core_invariants ctxTiny).2.2 (by decide)⟩

end FBH
